import Mathlib

/-!
# Memory Game (card flip): a verification development

Shallow embedding of `Memory Game/main.c`.

* The globals `board`, `flipped_cards`, `flipped_count`, `matched_pairs` are the fields of
  `State`; every C function becomes a function that takes the state and returns the new one.
* A C array is a total function on `Fin n`.  A subscript that is computed at run time goes
  through `index?`, and a function containing such a subscript returns `Option`: `none`
  stands for an access outside the array (undefined behaviour in C).
* `int` is `Int`.  The increment `matched_pairs++` of `check_match` is taken with 32-bit
  wrap-around (`wrap32`), since `check_match` can be entered with any `int` in
  `matched_pairs`.  `flipped_count++` is only defined where `flipped_count` is a subscript of
  `flipped_cards`, and a coordinate typed by the player is decremented once and then compared
  with the grid bounds, where wrap-around changes no verdict (`decrement_wrap_agrees`).
* `rand()` is a stream `rand : Nat → Nat`: `rand k` is the value returned by the `k`-th call.
* The keyboard is a list of `Attempt`s: what the two `scanf` calls of one call of
  `get_player_input` deliver.
* `printf`, `display_board`, `clear_screen` and `getchar` touch no game state and are left
  out, except that the diagnostic printed by `get_player_input` is kept as its `printed` result.
* `play_game` is a machine whose steps are the statements of its loop (`step`, `trace`);
  `Inv` is the invariant of that loop, one clause per program point.
-/

namespace MemoryGame

/-! ## Constants and data model (main.c lines 6-22) -/

abbrev ROWS : Nat := 4
abbrev COLS : Nat := 4
abbrev TOTAL_CARDS : Nat := ROWS * COLS
abbrev PAIRS : Nat := TOTAL_CARDS / 2

/-- Structure to represent a card. -/
structure Card where
  value : Int
  is_flipped : Bool
  is_matched : Bool
deriving DecidableEq, Repr

/-- The array `Card board[ROWS][COLS]`. -/
abbrev Board := Fin ROWS → Fin COLS → Card

/-- The local array `int values[TOTAL_CARDS]` of `initialize_board`. -/
abbrev Values := Fin TOTAL_CARDS → Int

/-- Global game state. -/
structure State where
  board : Board
  flipped_cards : Fin 2 → Fin 2 → Int
  flipped_count : Int
  matched_pairs : Int

/-- An `int` used as subscript of an array of `n` elements; `none` outside the array. -/
def index? (n : Nat) (i : Int) : Option (Fin n) :=
  if h : 0 ≤ i ∧ i < (n : Int) then some ⟨i.toNat, by omega⟩ else none

/-- The read `values[i]`. -/
def read? (values : Values) (i : Int) : Option Int :=
  (index? TOTAL_CARDS i).map values

/-- The write `values[i] = v`. -/
def write? (values : Values) (i : Int) (v : Int) : Option Values :=
  (index? TOTAL_CARDS i).map (fun k => Function.update values k v)

/-- The write of a whole card `board[i][j] = c`, with `i`, `j` loop variables in range. -/
def setCard (board : Board) (i : Fin ROWS) (j : Fin COLS) (c : Card) : Board :=
  fun i' j' => if i' = i ∧ j' = j then c else board i' j'

/-- The read `board[row][col]` for `int` subscripts. -/
def cardAt? (board : Board) (row col : Int) : Option Card := do
  let i ← index? ROWS row
  let j ← index? COLS col
  pure (board i j)

/-! ## initialize_board (main.c lines 52-81) -/

/-- Lines 59-62: `for (i = 0; i < PAIRS; i++) { values[i*2] = i+1; values[i*2+1] = i+1; }`. -/
def fill_pairs (values : Values) : Option Values :=
  (List.range PAIRS).foldlM (fun values i => do
    let values ← write? values ((i : Int) * 2) ((i : Int) + 1)
    write? values ((i : Int) * 2 + 1) ((i : Int) + 1)) values

/-- Lines 65-70: `for (i = TOTAL_CARDS - 1; i > 0; i--) { j = rand() % (i+1); swap }`.
The first argument is the loop variable `i`, the second counts the calls of `rand()` made
so far. -/
def shuffle_loop (rand : Nat → Nat) : Nat → Nat → Values → Option Values
  | 0, _, values => some values
  | i + 1, k, values => do
    let j := rand k % (i + 1 + 1)
    let temp ← read? values ((i + 1 : Nat) : Int)
    let vj ← read? values (j : Int)
    let values ← write? values ((i + 1 : Nat) : Int) vj
    let values ← write? values (j : Int) temp
    shuffle_loop rand i (k + 1) values

/-- Lines 75-79: the inner loop over the columns of row `i`.  The loop state is the board
together with the local variable `index`. -/
def assign_row (values : Values) (i : Fin ROWS) (st : Board × Int) : Option (Board × Int) :=
  (List.finRange COLS).foldlM (fun (st : Board × Int) j => do
    let v ← read? values st.2
    pure (setCard st.1 i j { value := v, is_flipped := false, is_matched := false },
      st.2 + 1)) st

/-- Lines 73-80: the nested loop that copies `values[index++]` into the board and clears
both flags of every card. -/
def assign_cards (values : Values) (board : Board) : Option (Board × Int) :=
  (List.finRange ROWS).foldlM (fun st i => assign_row values i st) (board, 0)

/-- The function `initialize_board`.  `uninit` is the indeterminate initial content of the
local array `values`. -/
def initialize_board (rand : Nat → Nat) (uninit : Values) (s : State) : Option State := do
  let s := { s with matched_pairs := 0, flipped_count := 0 }
  let values ← fill_pairs uninit
  let values ← shuffle_loop rand (TOTAL_CARDS - 1) 0 values
  let (board, _) ← assign_cards values s.board
  pure { s with board := board }

/-- The array right after lines 59-62: position `k` holds `k / 2 + 1`. -/
def paired : Values := fun k => ((k.val / 2 : Nat) : Int) + 1

/-- The rearrangement of positions made by the shuffle loop from loop variable `i`, after
`k` calls of `rand()`: the swap of this iteration applied after that of the iterations
that follow (`shuffle_loop_eq` states it). -/
def shuffle_perm (rand : Nat → Nat) :
    (i : Nat) → i < TOTAL_CARDS → Nat → Equiv.Perm (Fin TOTAL_CARDS)
  | 0, _, _ => Equiv.refl _
  | i + 1, h, k =>
    (shuffle_perm rand i (Nat.lt_of_succ_lt h) (k + 1)).trans
      (Equiv.swap ⟨i + 1, h⟩
        ⟨rand k % (i + 1 + 1), lt_of_lt_of_le (Nat.mod_lt _ (Nat.succ_pos _)) h⟩)

/-- A choice sequence `(j_15, ..., j_1)` of the shuffle: the choice number `k` is made at
loop variable `i = 15 - k` and lies in `0..i`, that is below `16 - k`. -/
abbrev Choices := (k : Fin (TOTAL_CARDS - 1)) → Fin (TOTAL_CARDS - k.val)

/-- A stream of `rand()` values that makes the choices `js`. -/
def rand_of (js : Choices) : Nat → Nat :=
  fun k => if h : k < TOTAL_CARDS - 1 then (js ⟨k, h⟩).val else 0

/-- An array of 16 distinguishable values: position `k` holds `k`. -/
def labels : Values := fun k => (k.val : Int)

/-- Position of the cell `(i, j)` in row-major order: `i * COLS + j`. -/
def rowMajor (i : Fin ROWS) (j : Fin COLS) : Fin TOTAL_CARDS :=
  ⟨i.val * COLS + j.val, by
    have := i.isLt; have := j.isLt; simp only [TOTAL_CARDS, ROWS, COLS] at *; omega⟩

/-- A face-down, unmatched card. -/
def fresh (v : Int) : Card := { value := v, is_flipped := false, is_matched := false }

/-- Number of cells of a board whose card satisfies `p`. -/
def countCards (board : Board) (p : Card → Bool) : Nat :=
  (Finset.univ.filter (fun c : Fin ROWS × Fin COLS => p (board c.1 c.2) = true)).card

/-- Each of the values `1..PAIRS` is on exactly two cards and no other value is on any. -/
def Paired (board : Board) : Prop :=
  ∀ v : Int, countCards board (fun c => c.value == v)
    = if 1 ≤ v ∧ v ≤ (PAIRS : Int) then 2 else 0

/-! ## get_player_input (main.c lines 118-153) -/

/-- What the player types in answer to one call of `get_player_input`. -/
inductive Attempt
  /-- The text is not a number: `scanf("%d", row)` does not return 1. -/
  | no_number
  /-- A row is read, then `scanf("%d", col)` does not return 1. -/
  | row_only (r : Int)
  /-- Both numbers are read: `r` and `c` are the `int`s stored by `scanf` (1-based). -/
  | coords (r c : Int)
deriving DecidableEq, Repr

/-- The three diagnostics of `get_player_input` (lines 137, 143, 148). -/
inductive Message
  /-- Line 137: "Invalid input! Please enter numbers between 1 and 4." -/
  | invalid_input
  /-- Line 143: "This card is already matched! Choose another card." -/
  | already_matched
  /-- Line 148: "This card is already flipped! Choose another card." -/
  | already_flipped
deriving DecidableEq, Repr

/-- Result of `get_player_input`: the returned flag, the contents of `*row` and `*col`
after the call, and the diagnostic printed, if any. -/
structure InputResult where
  ret : Bool
  row : Int
  col : Int
  printed : Option Message
deriving DecidableEq, Repr

/-- The function `get_player_input`.  `row` and `col` are the contents of `*row` and `*col`
before the call. -/
def get_player_input (s : State) (row col : Int) (a : Attempt) :
    Option (InputResult × State) :=
  match a with
  | .no_number => some ({ ret := false, row := row, col := col, printed := none }, s)
  | .row_only r => some ({ ret := false, row := r, col := col, printed := none }, s)
  | .coords r c => do
    -- Convert to 0-based indexing
    let row := r - 1
    let col := c - 1
    -- Validate input
    if row < 0 ∨ row ≥ (ROWS : Int) ∨ col < 0 ∨ col ≥ (COLS : Int) then
      pure ({ ret := false, row := row, col := col, printed := some .invalid_input }, s)
    else
      -- Check if card is already matched or flipped
      let card ← cardAt? s.board row col
      if card.is_matched then
        pure ({ ret := false, row := row, col := col, printed := some .already_matched }, s)
      else if card.is_flipped then
        pure ({ ret := false, row := row, col := col, printed := some .already_flipped }, s)
      else
        pure ({ ret := true, row := row, col := col, printed := none }, s)

/-- Two's-complement wrap-around of a 32-bit `int`. -/
def wrap32 (x : Int) : Int := (x + 2 ^ 31) % 2 ^ 32 - 2 ^ 31

/-! ## flip_card, check_match, hide_unmatched_cards, is_game_won (lines 155-194) -/

/-- The write `flipped_cards[k][b] = v`. -/
def setEntry (fc : Fin 2 → Fin 2 → Int) (k b : Fin 2) (v : Int) : Fin 2 → Fin 2 → Int :=
  fun k' b' => if k' = k ∧ b' = b then v else fc k' b'

/-- The function `flip_card`. -/
def flip_card (s : State) (row col : Int) : Option (Bool × State) := do
  let i ← index? ROWS row
  let j ← index? COLS col
  let board := setCard s.board i j { s.board i j with is_flipped := true }
  let k ← index? 2 s.flipped_count
  let flipped_cards := setEntry s.flipped_cards k 0 row
  let flipped_cards := setEntry flipped_cards k 1 col
  pure (true, { s with board := board, flipped_cards := flipped_cards,
                       flipped_count := s.flipped_count + 1 })

/-- The function `check_match`. -/
def check_match (s : State) : Option (Bool × State) := do
  let row1 := s.flipped_cards 0 0
  let col1 := s.flipped_cards 0 1
  let row2 := s.flipped_cards 1 0
  let col2 := s.flipped_cards 1 1
  let i1 ← index? ROWS row1
  let j1 ← index? COLS col1
  let i2 ← index? ROWS row2
  let j2 ← index? COLS col2
  if (s.board i1 j1).value = (s.board i2 j2).value then
    -- Match found!
    let board := setCard s.board i1 j1 { s.board i1 j1 with is_matched := true }
    let board := setCard board i2 j2 { board i2 j2 with is_matched := true }
    pure (true, { s with board := board, matched_pairs := wrap32 (s.matched_pairs + 1) })
  else
    pure (false, s)

/-- Lines 184-188: the inner loop of `hide_unmatched_cards` over the columns of row `i`. -/
def hide_row (i : Fin ROWS) (board : Board) : Board :=
  (List.finRange COLS).foldl (fun board j =>
    if !(board i j).is_matched then
      setCard board i j { board i j with is_flipped := false }
    else board) board

/-- The function `hide_unmatched_cards`. -/
def hide_unmatched_cards (s : State) : State :=
  { s with board := (List.finRange ROWS).foldl (fun board i => hide_row i board) s.board }

/-- The function `is_game_won`. -/
def is_game_won (s : State) : Bool × State :=
  (decide (s.matched_pairs = (PAIRS : Int)), s)

/-- The card selected as number `k` of the turn: `board[flipped_cards[k][0]][flipped_cards[k][1]]`. -/
def selected? (s : State) (k : Fin 2) : Option Card :=
  cardAt? s.board (s.flipped_cards k 0) (s.flipped_cards k 1)

/-- The comparison of line 169 on the two selected cards. -/
def selected_equal (s : State) : Bool :=
  match selected? s 0, selected? s 1 with
  | some a, some b => decide (a.value = b.value)
  | _, _ => false

/-! ## play_game (main.c lines 203-254) as a machine

One step is one statement of the loop of `play_game`.  A configuration holds the program
point, the globals and the locals of `play_game`. -/

/-- Program points of `play_game`, named by what is executed next. -/
inductive PC
  /-- Line 208: `while (!is_game_won())`. -/
  | loop_test
  /-- Line 215: `while (!get_player_input(&row1, &col1))`. -/
  | ask_first
  /-- Line 218: `flip_card(row1, col1)`. -/
  | flip_first
  /-- Line 225: `while (!get_player_input(&row2, &col2))`. -/
  | ask_second
  /-- Line 228: `flip_card(row2, col2)`. -/
  | flip_second
  /-- Line 233: `bool is_match = check_match()`. -/
  | check
  /-- Lines 235-240: `if (!is_match) { ... hide_unmatched_cards(); }`. -/
  | branch
  /-- Line 243: `flipped_count = 0`. -/
  | reset
  /-- Line 248: the loop has been left. -/
  | finished
deriving DecidableEq, Repr

/-- The locals of `play_game`. -/
structure Locals where
  row1 : Int
  col1 : Int
  row2 : Int
  col2 : Int
  is_match : Bool
deriving DecidableEq, Repr

/-- A configuration of `play_game`. -/
structure Config where
  pc : PC
  st : State
  loc : Locals

/-- One statement of `play_game`.  `input` is what the player has typed and the program has
not read yet; with no input left the two input loops wait. -/
def step (c : Config) (input : List Attempt) : Option (Config × List Attempt) :=
  match c.pc with
  | .loop_test =>
    let (won, s) := is_game_won c.st
    if !won then some ({ c with pc := .ask_first, st := s }, input)
    else some ({ c with pc := .finished, st := s }, input)
  | .ask_first =>
    match input with
    | [] => some (c, [])
    | a :: rest => do
      let (r, s) ← get_player_input c.st c.loc.row1 c.loc.col1 a
      let loc := { c.loc with row1 := r.row, col1 := r.col }
      if !r.ret then pure ({ pc := .ask_first, st := s, loc := loc }, rest)
      else pure ({ pc := .flip_first, st := s, loc := loc }, rest)
  | .flip_first => do
    let (_, s) ← flip_card c.st c.loc.row1 c.loc.col1
    pure ({ c with pc := .ask_second, st := s }, input)
  | .ask_second =>
    match input with
    | [] => some (c, [])
    | a :: rest => do
      let (r, s) ← get_player_input c.st c.loc.row2 c.loc.col2 a
      let loc := { c.loc with row2 := r.row, col2 := r.col }
      if !r.ret then pure ({ pc := .ask_second, st := s, loc := loc }, rest)
      else pure ({ pc := .flip_second, st := s, loc := loc }, rest)
  | .flip_second => do
    let (_, s) ← flip_card c.st c.loc.row2 c.loc.col2
    pure ({ c with pc := .check, st := s }, input)
  | .check => do
    let (is_match, s) ← check_match c.st
    pure ({ pc := .branch, st := s, loc := { c.loc with is_match := is_match } }, input)
  | .branch =>
    if !c.loc.is_match then
      some ({ c with pc := .reset, st := hide_unmatched_cards c.st }, input)
    else some ({ c with pc := .reset }, input)
  | .reset =>
    -- Reset flipped count for next turn
    some ({ c with pc := .loop_test, st := { c.st with flipped_count := 0 } }, input)
  | .finished => some (c, input)

/-- The configurations visited by at most `n` steps from `c`, `c` first.  The list ends
early only where a step is undefined. -/
def trace : Nat → Config → List Attempt → List Config
  | 0, c, _ => [c]
  | n + 1, c, input =>
    match step c input with
    | none => [c]
    | some (c', rest) => c :: trace n c' rest

/-- The configuration reached by `n` steps from `c`, with the input left unread; `none`
where a step is undefined. -/
def run : Nat → Config → List Attempt → Option (Config × List Attempt)
  | 0, c, input => some (c, input)
  | n + 1, c, input =>
    match step c input with
    | none => none
    | some (c', rest) => run n c' rest

/-- The function `play_game`, observed for `n` steps of its loop: `initialize_board`, then
the loop from its test.  `s` holds the globals and `loc` the (indeterminate) locals at the
call. -/
def play_game (rand : Nat → Nat) (uninit : Values) (s : State) (loc : Locals) (n : Nat)
    (input : List Attempt) : List Config :=
  match initialize_board rand uninit s with
  | none => []
  | some s' => trace n { pc := .loop_test, st := s', loc := loc } input

/-- A configuration that some run of `play_game` visits. -/
def Reachable (c : Config) : Prop :=
  ∃ rand uninit s loc n input, c ∈ play_game rand uninit s loc n input

/-- Number of turns of a run in which `check_match` has returned true: the visits of line
235 with `is_match` true. -/
def matching_turns (t : List Config) : Nat :=
  t.countP (fun c => decide (c.pc = .branch) && c.loc.is_match)

/-! ## Invariant of the loop of `play_game` -/

/-- A cell of the board. -/
abbrev Cell := Fin ROWS × Fin COLS

/-- The card in a cell. -/
def Board.card (board : Board) (p : Cell) : Card := board p.1 p.2

/-- The `int` coordinates `(row, col)` name the cell `p`. -/
def Names (row col : Int) (p : Cell) : Prop := row = (p.1.val : Int) ∧ col = (p.2.val : Int)

/-- The cards lying face up are the matched ones and those in the cells `sel`. -/
def FaceUp (board : Board) (sel : List Cell) : Prop :=
  ∀ p : Cell, (board.card p).is_flipped = ((board.card p).is_matched || decide (p ∈ sel))

/-- Cards of equal value are matched together: the partner of a matched card is matched. -/
def MatchedByValue (board : Board) : Prop :=
  ∀ p q : Cell, (board.card p).value = (board.card q).value →
    (board.card p).is_matched = (board.card q).is_matched

/-- What holds at each program point of `play_game`. -/
def Inv (c : Config) : Prop :=
  (Paired c.st.board ∧ MatchedByValue c.st.board) ∧
  ((countCards c.st.board (fun k => k.is_matched) : Nat) : Int) = 2 * c.st.matched_pairs ∧
  match c.pc with
  | .loop_test => c.st.flipped_count = 0 ∧ FaceUp c.st.board []
  | .ask_first => c.st.flipped_count = 0 ∧ FaceUp c.st.board []
  | .flip_first => c.st.flipped_count = 0 ∧ FaceUp c.st.board [] ∧
      ∃ p, Names c.loc.row1 c.loc.col1 p ∧ (c.st.board.card p).is_matched = false
  | .ask_second => c.st.flipped_count = 1 ∧
      ∃ p, Names (c.st.flipped_cards 0 0) (c.st.flipped_cards 0 1) p ∧
        (c.st.board.card p).is_matched = false ∧ FaceUp c.st.board [p]
  | .flip_second => c.st.flipped_count = 1 ∧
      ∃ p q, Names (c.st.flipped_cards 0 0) (c.st.flipped_cards 0 1) p ∧
        Names c.loc.row2 c.loc.col2 q ∧ p ≠ q ∧
        (c.st.board.card p).is_matched = false ∧ (c.st.board.card q).is_matched = false ∧
        FaceUp c.st.board [p]
  | .check => c.st.flipped_count = 2 ∧
      ∃ p q, Names (c.st.flipped_cards 0 0) (c.st.flipped_cards 0 1) p ∧
        Names (c.st.flipped_cards 1 0) (c.st.flipped_cards 1 1) q ∧ p ≠ q ∧
        (c.st.board.card p).is_matched = false ∧ (c.st.board.card q).is_matched = false ∧
        FaceUp c.st.board [p, q]
  | .branch => c.st.flipped_count = 2 ∧
      if c.loc.is_match then FaceUp c.st.board []
      else ∃ p q, FaceUp c.st.board [p, q]
  | .reset => c.st.flipped_count = 2 ∧ FaceUp c.st.board []
  | .finished => c.st.flipped_count = 0 ∧ FaceUp c.st.board [] ∧
      c.st.matched_pairs = (PAIRS : Int)

/-- What one iteration of the loop of `hide_unmatched_cards` does to a card. -/
def hideCard (c : Card) : Card := if !c.is_matched then { c with is_flipped := false } else c

/-- What one step does to the cards and to `matched_pairs`. -/
def StepFacts (c c' : Config) : Prop :=
  (∀ r : Cell, (c'.st.board.card r).value = (c.st.board.card r).value) ∧
  (∀ r : Cell, (c.st.board.card r).is_matched = true → (c'.st.board.card r).is_matched = true) ∧
  c'.st.matched_pairs = c.st.matched_pairs
    + (if c'.pc = .branch ∧ c'.loc.is_match = true then 1 else 0) ∧
  ((c'.pc = .branch ∧ c'.loc.is_match = true) ↔ (c.pc = .check ∧ selected_equal c.st = true))

/-! ## A concrete game, used to instantiate the theorems -/

/-- The globals when the program starts: static storage is zero-initialised. -/
def zero_state : State :=
  { board := fun _ _ => { value := 0, is_flipped := false, is_matched := false },
    flipped_cards := fun _ _ => 0, flipped_count := 0, matched_pairs := 0 }

/-- Some contents for the locals of `play_game`. -/
def no_locals : Locals := { row1 := 0, col1 := 0, row2 := 0, col2 := 0, is_match := false }

/-- A stream of `rand()` values: with it the shuffle yields the rows
`5 5 1 1`, `3 3 2 2`, `4 4 6 6`, `7 7 8 8`. -/
def demo_rand : Nat → Nat :=
  fun k => [15, 14, 13, 12, 11, 10, 7, 6, 3, 2, 5, 4, 1, 0, 1].getD k 0

/-- The state left by `initialize_board` for `demo_rand`. -/
def demo_state : State :=
  (initialize_board demo_rand (fun _ => 0) zero_state).getD zero_state

/-- The demo board with `flipped_cards` naming the cells `(3,3)` and `(3,2)`, both of value
8, and `matched_pairs` at `INT_MAX`. -/
def overflow_state : State :=
  { demo_state with
    flipped_cards := fun k b => if k = 1 ∧ b = 1 then 2 else 3,
    matched_pairs := 2147483647 }

/-- The configuration after `n` steps of the loop of `play_game` from the first input loop
in `demo_state`, with `input` typed. -/
def demo_config (n : Nat) (input : List Attempt) : Config :=
  match (trace n { pc := .ask_first, st := demo_state, loc := no_locals } input).getLast? with
  | some c => c
  | none => { pc := .ask_first, st := demo_state, loc := no_locals }

/-- The state of `demo_config`. -/
def demo_after (n : Nat) (input : List Attempt) : State := (demo_config n input).st

/-! ## Lemmas on initialize_board -/

theorem index?_of_lt {n : Nat} (k : Nat) (h : k < n) : index? n (k : Int) = some ⟨k, h⟩ := by
  unfold index?
  rw [dif_pos ⟨by omega, by omega⟩]
  simp

theorem read?_of_lt (values : Values) (k : Nat) (h : k < TOTAL_CARDS) :
    read? values (k : Int) = some (values ⟨k, h⟩) := by
  simp [read?, index?_of_lt k h]

theorem fill_pairs_eq (u : Values) : fill_pairs u = some paired := by
  have h : fill_pairs u = some (fun k => paired k) := by
    simp [fill_pairs, List.range, List.range.loop, List.foldlM, write?, index?]
    funext k
    fin_cases k <;> simp [Function.update, paired] <;> rfl
  exact h

theorem swap_writes (values : Values) (a b : Fin TOTAL_CARDS) :
    Function.update (Function.update values a (values b)) b (values a)
      = values ∘ (Equiv.swap a b) := by
  funext k
  by_cases hb : k = b
  · subst hb; simp
  · by_cases ha : k = a
    · subst ha; simp [Function.update_noteq hb]
    · simp [Function.update_noteq hb, Function.update_noteq ha,
        Equiv.swap_apply_of_ne_of_ne ha hb]

/-- The shuffle loop never leaves the array and rearranges it by a permutation. -/
theorem shuffle_loop_perm (rand : Nat → Nat) :
    ∀ (i k : Nat) (values : Values), i < TOTAL_CARDS →
      ∃ σ : Equiv.Perm (Fin TOTAL_CARDS), shuffle_loop rand i k values = some (values ∘ σ) := by
  intro i
  induction i with
  | zero => intro k values _; exact ⟨Equiv.refl _, by simp [shuffle_loop]⟩
  | succ i ih =>
    intro k values hi
    have hj : rand k % (i + 1 + 1) < TOTAL_CARDS :=
      lt_of_lt_of_le (Nat.mod_lt _ (by omega)) (by omega)
    obtain ⟨σ, hσ⟩ := ih (k + 1)
      (values ∘ (Equiv.swap ⟨i + 1, hi⟩ ⟨rand k % (i + 1 + 1), hj⟩)) (by omega)
    refine ⟨σ.trans (Equiv.swap ⟨i + 1, hi⟩ ⟨rand k % (i + 1 + 1), hj⟩), ?_⟩
    simp only [shuffle_loop, read?, write?, index?_of_lt _ hi, index?_of_lt _ hj,
      Option.map_some', Option.bind_eq_bind, Option.some_bind, swap_writes, hσ]
    rfl

theorem assign_row_eq (values : Values) (i : Fin ROWS) (board : Board) (n : Nat)
    (h : n + 3 < TOTAL_CARDS) :
    assign_row values i (board, (n : Int))
    = some (setCard (setCard (setCard (setCard board i 0 (fresh (values ⟨n, by omega⟩)))
          i 1 (fresh (values ⟨n + 1, by omega⟩))) i 2 (fresh (values ⟨n + 2, by omega⟩)))
          i 3 (fresh (values ⟨n + 3, h⟩)), ((n + 4 : Nat) : Int)) := by
  have e1 : (n : Int) + 1 = ((n + 1 : Nat) : Int) := by push_cast; ring
  have e2 : ((n + 1 : Nat) : Int) + 1 = ((n + 2 : Nat) : Int) := by push_cast; ring
  have e3 : ((n + 2 : Nat) : Int) + 1 = ((n + 3 : Nat) : Int) := by push_cast; ring
  have e4 : ((n + 3 : Nat) : Int) + 1 = ((n + 4 : Nat) : Int) := by push_cast; ring
  have hl : List.finRange COLS = [0, 1, 2, 3] := by decide
  unfold assign_row
  rw [hl]
  simp only [List.foldlM, Option.bind_eq_bind, Option.pure_def, Option.some_bind,
    read?_of_lt values n (by omega), e1, read?_of_lt values (n + 1) (by omega), e2,
    read?_of_lt values (n + 2) (by omega), e3, read?_of_lt values (n + 3) h, e4, fresh]

theorem assign_cards_eq (values : Values) (board : Board) :
    assign_cards values board = some (fun i j => fresh (values (rowMajor i j)), 16) := by
  have hl : List.finRange ROWS = [0, 1, 2, 3] := by decide
  have h0 : (0 : Int) = ((0 : Nat) : Int) := rfl
  unfold assign_cards
  rw [hl, h0]
  simp only [List.foldlM, Option.bind_eq_bind]
  rw [assign_row_eq values 0 board 0 (by decide), Option.some_bind,
      assign_row_eq values 1 _ 4 (by decide), Option.some_bind,
      assign_row_eq values 2 _ 8 (by decide), Option.some_bind,
      assign_row_eq values 3 _ 12 (by decide), Option.some_bind]
  simp only [Option.pure_def, Option.some.injEq, Prod.mk.injEq]
  refine ⟨?_, rfl⟩
  funext i j
  fin_cases i <;> fin_cases j <;> rfl

/-- What `initialize_board` computes: it is always defined, and the board is the paired
array rearranged by a permutation, laid out row-major, all cards face down and unmatched. -/
theorem initialize_board_eq (rand : Nat → Nat) (uninit : Values) (s : State) :
    ∃ σ : Equiv.Perm (Fin TOTAL_CARDS),
      initialize_board rand uninit s = some
        { board := fun i j => fresh (paired (σ (rowMajor i j))),
          flipped_cards := s.flipped_cards, flipped_count := 0, matched_pairs := 0 } := by
  obtain ⟨σ, hσ⟩ := shuffle_loop_perm rand (TOTAL_CARDS - 1) 0 paired (by decide)
  refine ⟨σ, ?_⟩
  simp [initialize_board, fill_pairs_eq, hσ, assign_cards_eq]

theorem initialize_board_defined (rand : Nat → Nat) (uninit : Values) (s : State) :
    ∃ s', initialize_board rand uninit s = some s' ∧ s'.matched_pairs = 0 ∧
      s'.flipped_count = 0 := by
  obtain ⟨σ, hσ⟩ := initialize_board_eq rand uninit s
  exact ⟨_, hσ, rfl, rfl⟩

theorem rowMajor_bijective :
    Function.Bijective (fun c : Fin ROWS × Fin COLS => rowMajor c.1 c.2) := by
  rw [Fintype.bijective_iff_injective_and_card]
  constructor
  · rintro ⟨i, j⟩ ⟨i', j'⟩ h
    have h' : i.val * COLS + j.val = i'.val * COLS + j'.val := congrArg Fin.val h
    have := j.isLt; have := j'.isLt
    simp only [COLS] at *
    ext <;> simp <;> omega
  · simp

theorem card_filter_bijective {α β : Type} [Fintype α] [Fintype β]
    (f : α → β) (hf : Function.Bijective f) (p : β → Prop) [DecidablePred p] :
    (Finset.univ.filter (fun a => p (f a))).card = (Finset.univ.filter p).card := by
  apply Finset.card_bij (fun a _ => f a)
  · intro a ha; simpa using ha
  · intro a _ b _ h; exact hf.1 h
  · intro b hb
    obtain ⟨a, rfl⟩ := hf.2 b
    exact ⟨a, by simpa using hb, rfl⟩

theorem paired_count (v : Int) :
    (Finset.univ.filter (fun k : Fin TOTAL_CARDS => paired k = v)).card
      = if 1 ≤ v ∧ v ≤ (PAIRS : Int) then 2 else 0 := by
  split
  · rename_i h
    obtain ⟨h1, h2⟩ := h
    simp only [PAIRS, TOTAL_CARDS, ROWS, COLS] at h2
    norm_num at h2
    interval_cases v <;> rfl
  · rename_i h
    rw [Finset.card_eq_zero, Finset.filter_eq_empty_iff]
    intro k _ hk
    apply h
    have := k.isLt
    simp only [paired, PAIRS, TOTAL_CARDS, ROWS, COLS] at *
    omega

/-- A rearrangement of the paired array, laid out row-major, has every value twice. -/
theorem paired_shuffled (σ : Equiv.Perm (Fin TOTAL_CARDS)) :
    Paired (fun i j => fresh (paired (σ (rowMajor i j)))) := by
  intro v
  rw [← paired_count v]
  have hb : Function.Bijective (fun c : Fin ROWS × Fin COLS => σ (rowMajor c.1 c.2)) :=
    σ.bijective.comp rowMajor_bijective
  rw [← card_filter_bijective _ hb (fun k => paired k = v)]
  simp [countCards, fresh]

/-! ## Lemmas on hide_unmatched_cards -/

theorem hide_cols_apply (i : Fin ROWS) (l : List (Fin COLS)) (hl : l.Nodup) :
    ∀ (board : Board) (i' : Fin ROWS) (j' : Fin COLS),
    (l.foldl (fun board j =>
      if !(board i j).is_matched then
        setCard board i j { board i j with is_flipped := false }
      else board) board) i' j'
    = if i' = i ∧ j' ∈ l then hideCard (board i' j') else board i' j' := by
  induction l with
  | nil => intro board i' j'; simp
  | cons j l ih =>
    intro board i' j'
    rw [List.nodup_cons] at hl
    rw [List.foldl_cons, ih hl.2]
    by_cases hi : i' = i
    · subst hi
      by_cases hj : j' = j
      · subst hj
        simp only [hl.1, and_false, if_false, true_and, List.mem_cons, true_or, if_true]
        cases hm : (board i' j').is_matched <;> simp [hideCard, setCard, hm]
      · by_cases hm : (board i' j).is_matched <;> simp [hideCard, setCard, hm, hj]
    · by_cases hm : (board i j).is_matched <;> simp [setCard, hm, hi]

theorem hide_row_apply (i : Fin ROWS) (board : Board) (i' : Fin ROWS) (j' : Fin COLS) :
    hide_row i board i' j' = if i' = i then hideCard (board i' j') else board i' j' := by
  unfold hide_row
  rw [hide_cols_apply i _ (List.nodup_finRange _)]
  simp

theorem hide_rows_apply (l : List (Fin ROWS)) (hl : l.Nodup) :
    ∀ (board : Board) (i' : Fin ROWS) (j' : Fin COLS),
    (l.foldl (fun board i => hide_row i board) board) i' j'
      = if i' ∈ l then hideCard (board i' j') else board i' j' := by
  induction l with
  | nil => intro board i' j'; simp
  | cons i l ih =>
    intro board i' j'
    rw [List.nodup_cons] at hl
    rw [List.foldl_cons, ih hl.2, hide_row_apply]
    by_cases hi : i' = i
    · subst hi; simp [hl.1]
    · simp [hi]

theorem hide_unmatched_cards_board (s : State) (i : Fin ROWS) (j : Fin COLS) :
    (hide_unmatched_cards s).board i j = hideCard (s.board i j) := by
  unfold hide_unmatched_cards
  simp only
  rw [hide_rows_apply _ (List.nodup_finRange _)]
  simp

/-! ## Lemmas on subscripts and get_player_input -/

theorem index?_val {n : Nat} (k : Fin n) : index? n (k.val : Int) = some k :=
  index?_of_lt k.val k.isLt

theorem index?_eq_some {n : Nat} {i : Int} {k : Fin n} (h : index? n i = some k) :
    i = (k.val : Int) := by
  unfold index? at h
  split at h
  · rename_i hb
    simp only [Option.some.injEq] at h
    subst h
    simp only
    omega
  · exact absurd h (by simp)

theorem index?_isSome {n : Nat} {i : Int} (h0 : 0 ≤ i) (h1 : i < (n : Int)) :
    ∃ k : Fin n, index? n i = some k ∧ i = (k.val : Int) := by
  refine ⟨⟨i.toNat, by omega⟩, ?_, ?_⟩
  · unfold index?; rw [dif_pos ⟨h0, h1⟩]
  · simp only; omega

theorem index?_eq_none {n : Nat} {i : Int} (h : ¬(0 ≤ i ∧ i < (n : Int))) :
    index? n i = none := by
  unfold index?; rw [dif_neg h]

theorem cardAt?_names {board : Board} {row col : Int} {p : Cell} (h : Names row col p) :
    cardAt? board row col = some (board.card p) := by
  obtain ⟨h1, h2⟩ := h
  subst h1 h2
  simp [cardAt?, index?_val, Board.card]

theorem cardAt?_eq_some {board : Board} {row col : Int} {card : Card}
    (h : cardAt? board row col = some card) :
    ∃ p, Names row col p ∧ board.card p = card := by
  unfold cardAt? at h
  cases hi : index? ROWS row with
  | none => simp [hi] at h
  | some i =>
    cases hj : index? COLS col with
    | none => simp [hi, hj] at h
    | some j =>
      simp [hi, hj] at h
      exact ⟨(i, j), ⟨index?_eq_some hi, index?_eq_some hj⟩, h⟩

theorem names_inj {row col : Int} {p q : Cell} (hp : Names row col p) (hq : Names row col q) :
    p = q := by
  obtain ⟨a, b⟩ := hp
  obtain ⟨a', b'⟩ := hq
  ext <;> omega

theorem names_bounds {row col : Int} {p : Cell} (h : Names row col p) :
    0 ≤ row ∧ row < (ROWS : Int) ∧ 0 ≤ col ∧ col < (COLS : Int) := by
  obtain ⟨a, b⟩ := h
  have := p.1.isLt; have := p.2.isLt
  omega

theorem names_of_bounds {row col : Int} (h : 0 ≤ row ∧ row < (ROWS : Int) ∧ 0 ≤ col ∧ col < (COLS : Int)) :
    ∃ p, Names row col p := by
  obtain ⟨i, _, hi⟩ := index?_isSome (n := ROWS) h.1 h.2.1
  obtain ⟨j, _, hj⟩ := index?_isSome (n := COLS) h.2.2.1 h.2.2.2
  exact ⟨(i, j), hi, hj⟩

/-- What `get_player_input` does with two numbers. -/
theorem get_player_input_coords (s : State) (row col r c : Int) :
    get_player_input s row col (.coords r c) = some (
      match cardAt? s.board (r - 1) (c - 1) with
      | none => { ret := false, row := r - 1, col := c - 1, printed := some .invalid_input }
      | some card =>
        if card.is_matched then
          { ret := false, row := r - 1, col := c - 1, printed := some .already_matched }
        else if card.is_flipped then
          { ret := false, row := r - 1, col := c - 1, printed := some .already_flipped }
        else { ret := true, row := r - 1, col := c - 1, printed := none }, s) := by
  unfold get_player_input
  simp only [Option.pure_def, Option.bind_eq_bind]
  by_cases hb : r - 1 < 0 ∨ r - 1 ≥ (ROWS : Int) ∨ c - 1 < 0 ∨ c - 1 ≥ (COLS : Int)
  · have hn : cardAt? s.board (r - 1) (c - 1) = none := by
      cases hc : cardAt? s.board (r - 1) (c - 1) with
      | none => rfl
      | some card =>
        obtain ⟨p, hp, _⟩ := cardAt?_eq_some hc
        have := names_bounds hp
        omega
    rw [if_pos hb, hn]
  · have hb' : 0 ≤ r - 1 ∧ r - 1 < (ROWS : Int) ∧ 0 ≤ c - 1 ∧ c - 1 < (COLS : Int) := by omega
    obtain ⟨p, hp⟩ := names_of_bounds hb'
    rw [if_neg hb]
    simp only [cardAt?_names hp, Option.some_bind]
    cases hm : (s.board.card p).is_matched <;> cases hf : (s.board.card p).is_flipped <;> simp

theorem get_player_input_state (s : State) (row col : Int) (a : Attempt) :
    ∃ res, get_player_input s row col a = some (res, s) := by
  cases a with
  | no_number => exact ⟨_, rfl⟩
  | row_only r => exact ⟨_, rfl⟩
  | coords r c => exact ⟨_, get_player_input_coords s row col r c⟩

theorem get_player_input_accepted {s s' : State} {row col : Int} {a : Attempt} {res : InputResult}
    (h : get_player_input s row col a = some (res, s')) (hr : res.ret = true) :
    s' = s ∧ ∃ p, Names res.row res.col p ∧ (s.board.card p).is_matched = false ∧
      (s.board.card p).is_flipped = false := by
  cases a with
  | no_number => simp [get_player_input] at h; obtain ⟨h1, h2⟩ := h; subst h1; simp at hr
  | row_only r => simp [get_player_input] at h; obtain ⟨h1, h2⟩ := h; subst h1; simp at hr
  | coords r c =>
    rw [get_player_input_coords] at h
    simp only [Option.some.injEq, Prod.mk.injEq] at h
    obtain ⟨h1, h2⟩ := h
    refine ⟨h2.symm, ?_⟩
    cases hc : cardAt? s.board (r - 1) (c - 1) with
    | none => rw [hc] at h1; subst h1; simp at hr
    | some card =>
      rw [hc] at h1
      obtain ⟨p, hp, hcard⟩ := cardAt?_eq_some hc
      cases hm : card.is_matched <;> cases hf : card.is_flipped <;> simp [hm, hf] at h1 <;>
        subst h1 <;> simp at hr
      exact ⟨p, hp, by rw [hcard]; exact hm, by rw [hcard]; exact hf⟩

/-- With 32-bit wrap-around on the decrement of line 132, the bounds test of line 136 gives
the same verdict for every `int` the player can type, and an accepted coordinate is the
same number. -/
theorem decrement_wrap_agrees (r : Int) (h : -2 ^ 31 ≤ r ∧ r < 2 ^ 31) :
    ((wrap32 (r - 1) < 0 ∨ wrap32 (r - 1) ≥ 4) ↔ (r - 1 < 0 ∨ r - 1 ≥ 4)) ∧
    (¬(r - 1 < 0 ∨ r - 1 ≥ 4) → wrap32 (r - 1) = r - 1) := by
  unfold wrap32
  constructor
  · constructor <;> intro h' <;> omega
  · intro h'
    omega

theorem cardAt?_eq_none_iff (board : Board) (row col : Int) :
    cardAt? board row col = none ↔
      ¬(0 ≤ row ∧ row < (ROWS : Int) ∧ 0 ≤ col ∧ col < (COLS : Int)) := by
  constructor
  · intro h hb
    obtain ⟨p, hp⟩ := names_of_bounds hb
    rw [cardAt?_names hp] at h
    exact absurd h (by simp)
  · intro h
    cases hc : cardAt? board row col with
    | none => rfl
    | some card =>
      obtain ⟨p, hp, _⟩ := cardAt?_eq_some hc
      exact absurd (names_bounds hp) h

/-! ## Lemmas on flip_card, check_match and on counting cards -/

theorem setCard_card (board : Board) (p r : Cell) (c : Card) :
    (setCard board p.1 p.2 c).card r = if r = p then c else board.card r := by
  simp only [setCard, Board.card, Prod.ext_iff]

theorem flip_card_names {s : State} {row col : Int} {p : Cell} {k : Fin 2}
    (hp : Names row col p) (hk : index? 2 s.flipped_count = some k) :
    flip_card s row col = some (true,
      { board := setCard s.board p.1 p.2 { s.board.card p with is_flipped := true },
        flipped_cards := setEntry (setEntry s.flipped_cards k 0 row) k 1 col,
        flipped_count := s.flipped_count + 1,
        matched_pairs := s.matched_pairs }) := by
  obtain ⟨h1, h2⟩ := hp
  subst h1 h2
  simp [flip_card, index?_val, hk, Board.card]

theorem check_match_names {s : State} {p q : Cell}
    (hp : Names (s.flipped_cards 0 0) (s.flipped_cards 0 1) p)
    (hq : Names (s.flipped_cards 1 0) (s.flipped_cards 1 1) q) :
    check_match s = some (
      if (s.board.card p).value = (s.board.card q).value then
        (true, { s with
          board := setCard (setCard s.board p.1 p.2 { s.board.card p with is_matched := true })
            q.1 q.2 { (setCard s.board p.1 p.2
              { s.board.card p with is_matched := true }).card q with is_matched := true },
          matched_pairs := wrap32 (s.matched_pairs + 1) })
      else (false, s)) := by
  obtain ⟨h1, h2⟩ := hp
  obtain ⟨h3, h4⟩ := hq
  simp only [check_match, h1, h2, h3, h4, index?_val, Option.bind_eq_bind, Option.some_bind,
    Option.pure_def, Board.card]
  split <;> rfl

/-- The board after a successful `check_match`, cell by cell. -/
theorem matched_board_card (board : Board) (p q r : Cell) :
    (setCard (setCard board p.1 p.2 { board.card p with is_matched := true })
      q.1 q.2 { (setCard board p.1 p.2
        { board.card p with is_matched := true }).card q with is_matched := true }).card r
    = if r = p ∨ r = q then { board.card r with is_matched := true } else board.card r := by
  rw [setCard_card, setCard_card, setCard_card]
  by_cases hq : r = q
  · subst hq
    by_cases hp : r = p
    · subst hp; simp
    · simp [hp]
  · by_cases hp : r = p
    · subst hp; simp [hq]
    · simp [hp, hq]

theorem countCards_congr (b b' : Board) (f : Card → Bool)
    (h : ∀ r : Cell, f (b'.card r) = f (b.card r)) : countCards b' f = countCards b f := by
  unfold countCards
  congr 1
  apply Finset.filter_congr
  intro r _
  have := h r
  simp only [Board.card] at this
  rw [this]

theorem countCards_matched_add_two (b b' : Board) (p q : Cell) (hne : p ≠ q)
    (hp : (b.card p).is_matched = false) (hq : (b.card q).is_matched = false)
    (h : ∀ r : Cell, (b'.card r).is_matched = ((b.card r).is_matched || decide (r = p ∨ r = q))) :
    countCards b' (fun k => k.is_matched) = countCards b (fun k => k.is_matched) + 2 := by
  unfold countCards
  have hset : Finset.univ.filter (fun c : Fin ROWS × Fin COLS => (b' c.1 c.2).is_matched = true)
      = insert p (insert q (Finset.univ.filter
          (fun c : Fin ROWS × Fin COLS => (b c.1 c.2).is_matched = true))) := by
    ext r
    have := h r
    simp only [Board.card] at this
    simp only [Finset.mem_filter, Finset.mem_univ, true_and, Finset.mem_insert, this,
      Bool.or_eq_true, decide_eq_true_eq]
    tauto
  rw [hset, Finset.card_insert_of_not_mem, Finset.card_insert_of_not_mem]
  · simp only [Finset.mem_filter, Finset.mem_univ, true_and]
    simp only [Board.card] at hq
    simp [hq]
  · simp only [Finset.mem_insert, Finset.mem_filter, Finset.mem_univ, true_and]
    simp only [Board.card] at hp
    simp [hp, hne]

theorem countCards_le (b : Board) (f : Card → Bool) : countCards b f ≤ TOTAL_CARDS := by
  unfold countCards
  calc (Finset.univ.filter (fun c : Fin ROWS × Fin COLS => f (b c.1 c.2) = true)).card
      ≤ (Finset.univ : Finset (Fin ROWS × Fin COLS)).card := Finset.card_filter_le _ _
    _ = TOTAL_CARDS := by simp

/-- The increment of a 32-bit `int` below `INT_MAX` does not wrap. -/
theorem wrap32_succ_of_bounds {m : Int} (hlo : -2147483648 ≤ m) (hhi : m < 2147483647) :
    wrap32 (m + 1) = m + 1 := by
  unfold wrap32
  omega

/-- Where `matched_pairs` is half a number of cards, its increment does not wrap. -/
theorem wrap32_succ_of_count {b : Board} {f : Card → Bool} {m : Int}
    (h : ((countCards b f : Nat) : Int) = 2 * m) : wrap32 (m + 1) = m + 1 := by
  have hle := countCards_le b f
  have hT : TOTAL_CARDS = 16 := rfl
  exact wrap32_succ_of_bounds (by omega) (by omega)

/-! ## The invariant is kept by every step -/

theorem paired_congr {b b' : Board} (h : ∀ r : Cell, (b'.card r).value = (b.card r).value)
    (hb : Paired b) : Paired b' := by
  intro v
  rw [countCards_congr b b' (fun c => c.value == v) (fun r => by simp only [h r])]
  exact hb v

theorem pairing_congr {b b' : Board}
    (hv : ∀ r : Cell, (b'.card r).value = (b.card r).value)
    (hm : ∀ r : Cell, (b'.card r).is_matched = (b.card r).is_matched)
    (h : Paired b ∧ MatchedByValue b) : Paired b' ∧ MatchedByValue b' := by
  refine ⟨paired_congr hv h.1, fun p q hpq => ?_⟩
  rw [hm p, hm q]
  exact h.2 p q (by rw [← hv p, ← hv q]; exact hpq)

/-- On a paired board two different cells of equal value are the only cells of that value. -/
theorem paired_partner {b : Board} (hb : Paired b) {p q : Cell} (hne : p ≠ q)
    (hv : (b.card p).value = (b.card q).value) (r : Cell)
    (hr : (b.card r).value = (b.card p).value) : r = p ∨ r = q := by
  have hcount := hb (b.card p).value
  unfold countCards at hcount
  have hp : p ∈ Finset.univ.filter
      (fun c : Fin ROWS × Fin COLS => ((b c.1 c.2).value == (b.card p).value) = true) := by
    simp [Board.card]
  have hq : q ∈ Finset.univ.filter
      (fun c : Fin ROWS × Fin COLS => ((b c.1 c.2).value == (b.card p).value) = true) := by
    simp only [Finset.mem_filter, Finset.mem_univ, true_and, beq_iff_eq]
    exact hv.symm
  have hr' : r ∈ Finset.univ.filter
      (fun c : Fin ROWS × Fin COLS => ((b c.1 c.2).value == (b.card p).value) = true) := by
    simp only [Finset.mem_filter, Finset.mem_univ, true_and, beq_iff_eq]
    exact hr
  have hcard : (Finset.univ.filter
      (fun c : Fin ROWS × Fin COLS => ((b c.1 c.2).value == (b.card p).value) = true)).card
      ≤ 2 := by
    rw [hcount]; split <;> omega
  have hsub : ({p, q} : Finset Cell) ⊆ Finset.univ.filter
      (fun c : Fin ROWS × Fin COLS => ((b c.1 c.2).value == (b.card p).value) = true) := by
    intro x hx
    simp only [Finset.mem_insert, Finset.mem_singleton] at hx
    rcases hx with rfl | rfl
    · exact hp
    · exact hq
  have heq := Finset.eq_of_subset_of_card_le hsub (by rw [Finset.card_pair hne]; exact hcard)
  rw [← heq] at hr'
  simpa using hr'

theorem faceUp_matched {b : Board} {l : List Cell} (h : FaceUp b l) (r : Cell)
    (hm : (b.card r).is_matched = true) : (b.card r).is_flipped = true := by
  rw [h r, hm]; rfl

theorem hide_card (s : State) (r : Cell) :
    (hide_unmatched_cards s).board.card r = hideCard (s.board.card r) :=
  hide_unmatched_cards_board s r.1 r.2

theorem hideCard_value (c : Card) : (hideCard c).value = c.value := by
  unfold hideCard; split <;> rfl

theorem hideCard_is_matched (c : Card) : (hideCard c).is_matched = c.is_matched := by
  unfold hideCard; split <;> rfl

theorem hideCard_is_flipped (c : Card) :
    (hideCard c).is_flipped = (c.is_matched && c.is_flipped) := by
  unfold hideCard; cases hm : c.is_matched <;> simp

/-- Flipping the card in cell `p`, cell by cell. -/
theorem flipped_board_card (board : Board) (p r : Cell) :
    (setCard board p.1 p.2 { board.card p with is_flipped := true }).card r
      = if r = p then { board.card r with is_flipped := true } else board.card r := by
  rw [setCard_card]
  by_cases h : r = p
  · subst h; simp
  · simp [h]

theorem setEntry_apply (fc : Fin 2 → Fin 2 → Int) (k b k' b' : Fin 2) (v : Int) :
    setEntry fc k b v k' b' = if k' = k ∧ b' = b then v else fc k' b' := rfl

theorem flip_card_spec {s : State} {row col : Int} {p : Cell} {k : Fin 2}
    (hp : Names row col p) (hk : index? 2 s.flipped_count = some k) :
    ∃ s', flip_card s row col = some (true, s') ∧
      (∀ r, s'.board.card r
        = if r = p then { s.board.card r with is_flipped := true } else s.board.card r) ∧
      s'.flipped_cards k 0 = row ∧ s'.flipped_cards k 1 = col ∧
      (∀ k' b, k' ≠ k → s'.flipped_cards k' b = s.flipped_cards k' b) ∧
      s'.flipped_count = s.flipped_count + 1 ∧ s'.matched_pairs = s.matched_pairs := by
  refine ⟨_, flip_card_names hp hk, fun r => flipped_board_card _ _ _, ?_, ?_, ?_, rfl, rfl⟩
  · simp [setEntry_apply]
  · simp [setEntry_apply]
  · intro k' b hk'
    simp [setEntry_apply, hk']

theorem check_match_spec {s : State} {p q : Cell}
    (hp : Names (s.flipped_cards 0 0) (s.flipped_cards 0 1) p)
    (hq : Names (s.flipped_cards 1 0) (s.flipped_cards 1 1) q) :
    ∃ b s', check_match s = some (b, s') ∧
      (b = true ↔ (s.board.card p).value = (s.board.card q).value) ∧
      (b = false → s' = s) ∧
      (b = true →
        (∀ r, s'.board.card r
          = if r = p ∨ r = q then { s.board.card r with is_matched := true }
            else s.board.card r) ∧
        s'.matched_pairs = wrap32 (s.matched_pairs + 1) ∧
        s'.flipped_cards = s.flipped_cards ∧
        s'.flipped_count = s.flipped_count) := by
  by_cases hv : (s.board.card p).value = (s.board.card q).value
  · refine ⟨true, _, by rw [check_match_names hp hq, if_pos hv], by simp [hv], by simp, ?_⟩
    intro _
    exact ⟨fun r => matched_board_card _ _ _ _, rfl, rfl, rfl⟩
  · exact ⟨false, s, by rw [check_match_names hp hq, if_neg hv], by simp [hv], by simp, by simp⟩

theorem inv_loop_test (s : State) (loc : Locals) (input : List Attempt)
    (h : Inv { pc := .loop_test, st := s, loc := loc }) :
    ∃ c' rest, step { pc := .loop_test, st := s, loc := loc } input = some (c', rest) ∧ Inv c' := by
  obtain ⟨hp, hn, hc, hf⟩ := h
  by_cases hw : s.matched_pairs = (PAIRS : Int)
  · exact ⟨{ pc := .finished, st := s, loc := loc }, input, by simp [step, is_game_won, hw],
      hp, hn, hc, hf, hw⟩
  · have hw' : ¬ s.matched_pairs = 8 := by simpa using hw
    exact ⟨{ pc := .ask_first, st := s, loc := loc }, input, by simp [step, is_game_won, hw'],
      hp, hn, hc, hf⟩

theorem inv_ask_first (s : State) (loc : Locals) (input : List Attempt)
    (h : Inv { pc := .ask_first, st := s, loc := loc }) :
    ∃ c' rest, step { pc := .ask_first, st := s, loc := loc } input = some (c', rest) ∧ Inv c' := by
  cases input with
  | nil => exact ⟨_, _, rfl, h⟩
  | cons a rest =>
    obtain ⟨hp, hn, hc, hf⟩ := h
    obtain ⟨res, hres⟩ := get_player_input_state s loc.row1 loc.col1 a
    cases hr : res.ret with
    | false =>
      exact ⟨{ pc := .ask_first, st := s, loc := { loc with row1 := res.row, col1 := res.col } },
        rest, by simp [step, hres, hr], hp, hn, hc, hf⟩
    | true =>
      obtain ⟨_, p, hnames, hm, _⟩ := get_player_input_accepted hres hr
      exact ⟨{ pc := .flip_first, st := s, loc := { loc with row1 := res.row, col1 := res.col } },
        rest, by simp [step, hres, hr], hp, hn, hc, hf, p, hnames, hm⟩

theorem inv_flip_first (s : State) (loc : Locals) (input : List Attempt)
    (h : Inv { pc := .flip_first, st := s, loc := loc }) :
    ∃ c' rest, step { pc := .flip_first, st := s, loc := loc } input = some (c', rest) ∧ Inv c' := by
  obtain ⟨hp, hn, hc, hf, p, hnames, hm⟩ := h
  simp only at hp hn hc hf hnames hm
  have hk : index? 2 s.flipped_count = some 0 := by rw [hc]; rfl
  obtain ⟨s', hflip, hb, h0, h1, _, hcnt, hmp⟩ := flip_card_spec hnames hk
  refine ⟨{ pc := .ask_second, st := s', loc := loc }, input, by simp [step, hflip], ?_, ?_, ?_⟩
  · exact pairing_congr (fun r => by rw [hb]; split <;> rfl)
      (fun r => by rw [hb]; split <;> rfl) hp
  · simp only
    rw [countCards_congr s.board _ (fun k => k.is_matched) (fun r => by rw [hb]; split <;> rfl),
      hmp]
    exact hn
  · refine ⟨by simp only [hcnt, hc]; rfl, p, ⟨?_, ?_⟩, ?_, ?_⟩
    · simp only [h0]; exact hnames.1
    · simp only [h1]; exact hnames.2
    · simp only; rw [hb, if_pos rfl]; exact hm
    · intro r
      simp only
      rw [hb]
      have := hf r
      by_cases hr : r = p
      · subst hr; simp
      · simpa [hr] using this

theorem inv_ask_second (s : State) (loc : Locals) (input : List Attempt)
    (h : Inv { pc := .ask_second, st := s, loc := loc }) :
    ∃ c' rest, step { pc := .ask_second, st := s, loc := loc } input = some (c', rest) ∧ Inv c' := by
  cases input with
  | nil => exact ⟨_, _, rfl, h⟩
  | cons a rest =>
    obtain ⟨hp, hn, hc, p, hsel, hm, hf⟩ := h
    simp only at hp hn hc hsel hm hf
    obtain ⟨res, hres⟩ := get_player_input_state s loc.row2 loc.col2 a
    cases hr : res.ret with
    | false =>
      exact ⟨{ pc := .ask_second, st := s, loc := { loc with row2 := res.row, col2 := res.col } },
        rest, by simp [step, hres, hr], hp, hn, hc, p, hsel, hm, hf⟩
    | true =>
      obtain ⟨_, q, hnames, hqm, hqf⟩ := get_player_input_accepted hres hr
      have hne : p ≠ q := by
        intro e
        subst e
        have := hf p
        simp [hqf, hm] at this
      exact ⟨{ pc := .flip_second, st := s, loc := { loc with row2 := res.row, col2 := res.col } },
        rest, by simp [step, hres, hr], hp, hn, hc, p, q, hsel, hnames, hne, hm, hqm, hf⟩

theorem inv_flip_second (s : State) (loc : Locals) (input : List Attempt)
    (h : Inv { pc := .flip_second, st := s, loc := loc }) :
    ∃ c' rest, step { pc := .flip_second, st := s, loc := loc } input = some (c', rest) ∧ Inv c' := by
  obtain ⟨hp, hn, hc, p, q, hsel, hnames, hne, hpm, hqm, hf⟩ := h
  simp only at hp hn hc hsel hnames hpm hqm hf
  have hk : index? 2 s.flipped_count = some 1 := by rw [hc]; rfl
  obtain ⟨s', hflip, hb, h0, h1, hoth, hcnt, hmp⟩ := flip_card_spec hnames hk
  refine ⟨{ pc := .check, st := s', loc := loc }, input, by simp [step, hflip], ?_, ?_, ?_⟩
  · exact pairing_congr (fun r => by rw [hb]; split <;> rfl)
      (fun r => by rw [hb]; split <;> rfl) hp
  · simp only
    rw [countCards_congr s.board _ (fun k => k.is_matched) (fun r => by rw [hb]; split <;> rfl),
      hmp]
    exact hn
  · refine ⟨by simp only [hcnt, hc]; rfl, p, q, ?_, ⟨?_, ?_⟩, hne, ?_, ?_, ?_⟩
    · simp only [hoth 0 _ (by decide)]; exact hsel
    · simp only [h0]; exact hnames.1
    · simp only [h1]; exact hnames.2
    · simp only; rw [hb, if_neg hne]; exact hpm
    · simp only; rw [hb, if_pos rfl]; exact hqm
    · intro r
      simp only
      rw [hb]
      have := hf r
      by_cases hr : r = q
      · subst hr; simp
      · simpa [hr] using this

theorem inv_check (s : State) (loc : Locals) (input : List Attempt)
    (h : Inv { pc := .check, st := s, loc := loc }) :
    ∃ c' rest, step { pc := .check, st := s, loc := loc } input = some (c', rest) ∧ Inv c' := by
  obtain ⟨hp, hn, hc, p, q, hsel1, hsel2, hne, hpm, hqm, hf⟩ := h
  simp only at hp hn hc hsel1 hsel2 hpm hqm hf
  obtain ⟨b, s', hcm, hiff, hfalse, htrue⟩ := check_match_spec hsel1 hsel2
  refine ⟨{ pc := .branch, st := s', loc := { loc with is_match := b } }, input,
    by simp [step, hcm], ?_⟩
  cases b with
  | false =>
    have := hfalse rfl
    subst this
    exact ⟨hp, hn, hc, by simp only [Bool.false_eq_true, if_false]; exact ⟨p, q, hf⟩⟩
  | true =>
    obtain ⟨hb, hmp, _, hcnt⟩ := htrue rfl
    have hval : ∀ r : Cell, (s'.board.card r).value = (s.board.card r).value :=
      fun r => by rw [hb]; split <;> rfl
    have hveq : (s.board.card p).value = (s.board.card q).value := hiff.1 rfl
    refine ⟨⟨paired_congr hval hp.1, ?_⟩, ?_, ?_, ?_⟩
    · intro x y hxy
      rw [hval x, hval y] at hxy
      rw [hb x, hb y]
      by_cases hx : x = p ∨ x = q
      · have hxv : (s.board.card x).value = (s.board.card p).value := by
          rcases hx with e | e
          · rw [e]
          · rw [e]; exact hveq.symm
        have hy := paired_partner hp.1 hne hveq y (by rw [← hxy]; exact hxv)
        simp only [if_pos hx, if_pos hy]
      · by_cases hy : y = p ∨ y = q
        · have hyv : (s.board.card y).value = (s.board.card p).value := by
            rcases hy with e | e
            · rw [e]
            · rw [e]; exact hveq.symm
          exact absurd (paired_partner hp.1 hne hveq x (by rw [hxy]; exact hyv)) hx
        · simp only [if_neg hx, if_neg hy]
          exact hp.2 x y hxy
    · simp only
      rw [countCards_matched_add_two s.board s'.board p q hne hpm hqm
        (fun r => by rw [hb]; split <;> simp [*]), hmp, wrap32_succ_of_count hn]
      push_cast
      omega
    · simp only [hcnt]; exact hc
    · simp only [if_true]
      intro r
      rw [hb]
      have := hf r
      by_cases hr : r = p ∨ r = q
      · simp only [if_pos hr]
        rcases hr with hr | hr <;> subst hr <;> simpa using this
      · simp only [if_neg hr]
        push_neg at hr
        simpa [hr.1, hr.2] using this

theorem inv_branch (s : State) (loc : Locals) (input : List Attempt)
    (h : Inv { pc := .branch, st := s, loc := loc }) :
    ∃ c' rest, step { pc := .branch, st := s, loc := loc } input = some (c', rest) ∧ Inv c' := by
  obtain ⟨hp, hn, hc, hf⟩ := h
  simp only at hp hn hc hf
  cases hm : loc.is_match with
  | true =>
    rw [hm] at hf
    exact ⟨{ pc := .reset, st := s, loc := loc }, input, by simp [step, hm], hp, hn, hc, hf⟩
  | false =>
    rw [hm] at hf
    simp only [Bool.false_eq_true, if_false] at hf
    obtain ⟨p, q, hf⟩ := hf
    refine ⟨{ pc := .reset, st := hide_unmatched_cards s, loc := loc }, input,
      by simp [step, hm], ?_, ?_, ?_, ?_⟩
    · exact pairing_congr (fun r => by rw [hide_card, hideCard_value])
        (fun r => by rw [hide_card, hideCard_is_matched]) hp
    · simp only
      rw [countCards_congr s.board _ (fun k => k.is_matched)
        (fun r => by simp only [hide_card, hideCard_is_matched])]
      exact hn
    · exact hc
    · intro r
      simp only
      rw [hide_card, hideCard_is_matched, hideCard_is_flipped]
      cases hmr : (s.board.card r).is_matched with
      | false => simp
      | true => simp [faceUp_matched hf r hmr]

theorem inv_reset (s : State) (loc : Locals) (input : List Attempt)
    (h : Inv { pc := .reset, st := s, loc := loc }) :
    ∃ c' rest, step { pc := .reset, st := s, loc := loc } input = some (c', rest) ∧ Inv c' := by
  obtain ⟨hp, hn, hc, hf⟩ := h
  exact ⟨{ pc := .loop_test, st := { s with flipped_count := 0 }, loc := loc }, input, rfl,
    hp, hn, rfl, hf⟩

/-- Every step from a configuration that satisfies the invariant is defined and leads to a
configuration that satisfies it. -/
theorem inv_step (c : Config) (input : List Attempt) (h : Inv c) :
    ∃ c' rest, step c input = some (c', rest) ∧ Inv c' := by
  obtain ⟨pc, s, loc⟩ := c
  cases pc with
  | loop_test => exact inv_loop_test s loc input h
  | ask_first => exact inv_ask_first s loc input h
  | flip_first => exact inv_flip_first s loc input h
  | ask_second => exact inv_ask_second s loc input h
  | flip_second => exact inv_flip_second s loc input h
  | check => exact inv_check s loc input h
  | branch => exact inv_branch s loc input h
  | reset => exact inv_reset s loc input h
  | finished => exact ⟨_, _, rfl, h⟩

/-! ## What a step changes -/

theorem selected_equal_names {s : State} {p q : Cell}
    (hp : Names (s.flipped_cards 0 0) (s.flipped_cards 0 1) p)
    (hq : Names (s.flipped_cards 1 0) (s.flipped_cards 1 1) q) :
    selected_equal s = decide ((s.board.card p).value = (s.board.card q).value) := by
  simp [selected_equal, selected?, cardAt?_names hp, cardAt?_names hq]

theorem stepFacts_same (pc pc' : PC) (s : State) (loc loc' : Locals) (h : pc' ≠ .branch)
    (h' : pc ≠ .check) :
    StepFacts { pc := pc, st := s, loc := loc } { pc := pc', st := s, loc := loc' } := by
  refine ⟨fun _ => rfl, fun _ hr => hr, ?_, ?_⟩ <;> simp [h, h']

theorem step_facts (c c' : Config) (input rest : List Attempt) (h : Inv c)
    (hs : step c input = some (c', rest)) : StepFacts c c' := by
  obtain ⟨pc, s, loc⟩ := c
  cases pc with
  | loop_test =>
    simp only [step, is_game_won] at hs
    split at hs <;> simp only [Option.some.injEq, Prod.mk.injEq] at hs <;> obtain ⟨rfl, _⟩ := hs <;>
      exact stepFacts_same _ _ _ _ _ (by decide) (by decide)
  | ask_first =>
    cases input with
    | nil =>
      simp only [step, Option.some.injEq, Prod.mk.injEq] at hs
      obtain ⟨rfl, _⟩ := hs
      exact stepFacts_same _ _ _ _ _ (by decide) (by decide)
    | cons a tl =>
      obtain ⟨res, hres⟩ := get_player_input_state s loc.row1 loc.col1 a
      simp only [step, hres, Option.bind_eq_bind, Option.some_bind, Option.pure_def] at hs
      split at hs <;> simp only [Option.some.injEq, Prod.mk.injEq] at hs <;>
        obtain ⟨rfl, _⟩ := hs <;> exact stepFacts_same _ _ _ _ _ (by decide) (by decide)
  | ask_second =>
    cases input with
    | nil =>
      simp only [step, Option.some.injEq, Prod.mk.injEq] at hs
      obtain ⟨rfl, _⟩ := hs
      exact stepFacts_same _ _ _ _ _ (by decide) (by decide)
    | cons a tl =>
      obtain ⟨res, hres⟩ := get_player_input_state s loc.row2 loc.col2 a
      simp only [step, hres, Option.bind_eq_bind, Option.some_bind, Option.pure_def] at hs
      split at hs <;> simp only [Option.some.injEq, Prod.mk.injEq] at hs <;>
        obtain ⟨rfl, _⟩ := hs <;> exact stepFacts_same _ _ _ _ _ (by decide) (by decide)
  | flip_first =>
    obtain ⟨_, _, hc, _, p, hnames, _⟩ := h
    simp only at hc hnames
    have hk : index? 2 s.flipped_count = some 0 := by rw [hc]; rfl
    obtain ⟨s', hflip, hb, _, _, _, _, hmp⟩ := flip_card_spec hnames hk
    simp only [step, hflip, Option.bind_eq_bind, Option.some_bind, Option.pure_def,
      Option.some.injEq, Prod.mk.injEq] at hs
    obtain ⟨rfl, _⟩ := hs
    refine ⟨fun r => by simp only [hb]; split <;> rfl,
      fun r hr => by simp only [hb]; split <;> exact hr, by simp [hmp], by simp⟩
  | flip_second =>
    obtain ⟨_, _, hc, p, q, _, hnames, _⟩ := h
    simp only at hc hnames
    have hk : index? 2 s.flipped_count = some 1 := by rw [hc]; rfl
    obtain ⟨s', hflip, hb, _, _, _, _, hmp⟩ := flip_card_spec hnames hk
    simp only [step, hflip, Option.bind_eq_bind, Option.some_bind, Option.pure_def,
      Option.some.injEq, Prod.mk.injEq] at hs
    obtain ⟨rfl, _⟩ := hs
    refine ⟨fun r => by simp only [hb]; split <;> rfl,
      fun r hr => by simp only [hb]; split <;> exact hr, by simp [hmp], by simp⟩
  | check =>
    obtain ⟨_, hn, _, p, q, hsel1, hsel2, _⟩ := h
    simp only at hn hsel1 hsel2
    obtain ⟨b, s', hcm, hiff, hfalse, htrue⟩ := check_match_spec hsel1 hsel2
    simp only [step, hcm, Option.bind_eq_bind, Option.some_bind, Option.pure_def,
      Option.some.injEq, Prod.mk.injEq] at hs
    obtain ⟨rfl, _⟩ := hs
    have hse := selected_equal_names hsel1 hsel2
    cases b with
    | false =>
      have e := (hfalse rfl).symm
      subst e
      have hv : ¬ (s.board.card p).value = (s.board.card q).value := by
        intro e; exact absurd (hiff.2 e) (by decide)
      refine ⟨fun _ => rfl, fun _ hr => hr, by simp, by simp [hse, hv]⟩
    | true =>
      obtain ⟨hb, hmp, _, _⟩ := htrue rfl
      rw [wrap32_succ_of_count hn] at hmp
      have hv : (s.board.card p).value = (s.board.card q).value := hiff.1 rfl
      refine ⟨fun r => by simp only [hb]; split <;> rfl,
        fun r hr => by simp only [hb]; split <;> simp [hr], by simp [hmp], by simp [hse, hv]⟩
  | branch =>
    simp only [step] at hs
    split at hs <;> simp only [Option.some.injEq, Prod.mk.injEq] at hs <;> obtain ⟨rfl, _⟩ := hs
    · refine ⟨fun r => by simp only [hide_card, hideCard_value],
        fun r hr => by simp only [hide_card, hideCard_is_matched]; exact hr,
        by simp [hide_unmatched_cards], by simp⟩
    · exact stepFacts_same _ _ _ _ _ (by decide) (by decide)
  | reset =>
    simp only [step, Option.some.injEq, Prod.mk.injEq] at hs
    obtain ⟨rfl, _⟩ := hs
    refine ⟨fun _ => rfl, fun _ hr => hr, by simp, by simp⟩
  | finished =>
    simp only [step, Option.some.injEq, Prod.mk.injEq] at hs
    obtain ⟨rfl, _⟩ := hs
    exact stepFacts_same _ _ _ _ _ (by decide) (by decide)

/-! ## The invariant holds in every reachable configuration -/

theorem inv_init {rand : Nat → Nat} {uninit : Values} {s s' : State} (loc : Locals)
    (h : initialize_board rand uninit s = some s') :
    Inv { pc := .loop_test, st := s', loc := loc } := by
  obtain ⟨σ, hσ⟩ := initialize_board_eq rand uninit s
  rw [hσ] at h
  simp only [Option.some.injEq] at h
  subst h
  refine ⟨⟨paired_shuffled σ, fun _ _ _ => rfl⟩, ?_, rfl, ?_⟩
  · simp [countCards, fresh]
  · intro r; simp [Board.card, fresh]

theorem trace_succ_of_step {c c' : Config} {input rest : List Attempt} (n : Nat)
    (h : step c input = some (c', rest)) :
    trace (n + 1) c input = c :: trace n c' rest := by
  simp only [trace, h]

theorem head_mem_trace (n : Nat) (c : Config) (input : List Attempt) :
    c ∈ trace n c input := by
  cases n with
  | zero => simp [trace]
  | succ n =>
    unfold trace
    split <;> simp

theorem inv_trace (n : Nat) : ∀ (c : Config) (input : List Attempt), Inv c →
    ∀ c' ∈ trace n c input, Inv c' := by
  induction n with
  | zero =>
    intro c input h c' hc'
    simp only [trace, List.mem_singleton] at hc'
    subst hc'; exact h
  | succ n ih =>
    intro c input h c' hc'
    obtain ⟨c1, rest, hs, h1⟩ := inv_step c input h
    rw [trace_succ_of_step n hs, List.mem_cons] at hc'
    rcases hc' with rfl | hc'
    · exact h
    · exact ih c1 rest h1 c' hc'

theorem reachable_inv {c : Config} (h : Reachable c) : Inv c := by
  obtain ⟨rand, uninit, s, loc, n, input, hc⟩ := h
  unfold play_game at hc
  cases hi : initialize_board rand uninit s with
  | none => simp [hi] at hc
  | some s' =>
    simp only [hi] at hc
    exact inv_trace n _ input (inv_init loc hi) c hc

theorem trace_eq_cons (n : Nat) (c : Config) (input : List Attempt) :
    trace n c input = c :: (trace n c input).tail := by
  cases n with
  | zero => simp [trace]
  | succ n =>
    unfold trace
    split <;> simp

theorem trace_length (n : Nat) : ∀ (c : Config) (input : List Attempt), Inv c →
    (trace n c input).length = n + 1 := by
  induction n with
  | zero => intro c input _; simp [trace]
  | succ n ih =>
    intro c input h
    obtain ⟨c1, rest, hs, h1⟩ := inv_step c input h
    rw [trace_succ_of_step n hs, List.length_cons, ih c1 rest h1]

theorem inv_matched_flipped {c : Config} (h : Inv c) (r : Cell)
    (hm : (c.st.board.card r).is_matched = true) : (c.st.board.card r).is_flipped = true := by
  obtain ⟨pc, s, loc⟩ := c
  obtain ⟨_, _, h⟩ := h
  cases pc with
  | loop_test => exact faceUp_matched h.2 r hm
  | ask_first => exact faceUp_matched h.2 r hm
  | flip_first => exact faceUp_matched h.2.1 r hm
  | ask_second => obtain ⟨_, p, _, _, hf⟩ := h; exact faceUp_matched hf r hm
  | flip_second => obtain ⟨_, p, q, _, _, _, _, _, hf⟩ := h; exact faceUp_matched hf r hm
  | check => obtain ⟨_, p, q, _, _, _, _, _, hf⟩ := h; exact faceUp_matched hf r hm
  | branch =>
    obtain ⟨_, h⟩ := h
    simp only at h
    split at h
    · exact faceUp_matched h r hm
    · obtain ⟨p, q, hf⟩ := h; exact faceUp_matched hf r hm
  | reset => exact faceUp_matched h.2 r hm
  | finished => exact faceUp_matched h.2.1 r hm

theorem inv_bounds {c : Config} (h : Inv c) :
    0 ≤ c.st.matched_pairs ∧ c.st.matched_pairs ≤ (PAIRS : Int) := by
  obtain ⟨_, hn, _⟩ := h
  have := countCards_le c.st.board (fun k => k.is_matched)
  simp only [PAIRS, TOTAL_CARDS, ROWS, COLS] at *
  omega

theorem trace_facts (n : Nat) : ∀ (c : Config) (input : List Attempt), Inv c →
    ∀ c' ∈ trace n c input,
      (∀ r : Cell, (c'.st.board.card r).value = (c.st.board.card r).value) ∧
      (∀ r : Cell, (c.st.board.card r).is_matched = true →
        (c'.st.board.card r).is_matched = true) ∧
      c.st.matched_pairs ≤ c'.st.matched_pairs := by
  induction n with
  | zero =>
    intro c input _ c' hc'
    simp only [trace, List.mem_singleton] at hc'
    subst hc'
    exact ⟨fun _ => rfl, fun _ h => h, le_refl _⟩
  | succ n ih =>
    intro c input h c' hc'
    obtain ⟨c1, rest, hs, h1⟩ := inv_step c input h
    obtain ⟨hv, hm, hmp, _⟩ := step_facts c c1 input rest h hs
    rw [trace_succ_of_step n hs, List.mem_cons] at hc'
    rcases hc' with rfl | hc'
    · exact ⟨fun _ => rfl, fun _ h => h, le_refl _⟩
    · obtain ⟨hv', hm', hmp'⟩ := ih c1 rest h1 c' hc'
      refine ⟨fun r => by rw [hv', hv], fun r hr => hm' r (hm r hr), ?_⟩
      have : c.st.matched_pairs ≤ c1.st.matched_pairs := by
        rw [hmp]; split <;> omega
      omega

theorem trace_count (n : Nat) : ∀ (c : Config) (input : List Attempt), Inv c →
    ∃ last, (trace n c input).getLast? = some last ∧ Inv last ∧
      last.st.matched_pairs = c.st.matched_pairs
        + (matching_turns (trace n c input).tail : Int) := by
  induction n with
  | zero =>
    intro c input h
    exact ⟨c, by simp [trace], h, by simp [trace, matching_turns]⟩
  | succ n ih =>
    intro c input h
    obtain ⟨c1, rest, hs, h1⟩ := inv_step c input h
    obtain ⟨_, _, hmp, _⟩ := step_facts c c1 input rest h hs
    obtain ⟨last, hl, hi, hc⟩ := ih c1 rest h1
    refine ⟨last, ?_, hi, ?_⟩
    · rw [trace_succ_of_step n hs]
      rw [trace_eq_cons] at hl ⊢
      rw [List.getLast?_cons_cons]
      exact hl
    · rw [trace_succ_of_step n hs, List.tail_cons, hc, hmp]
      rw [trace_eq_cons n c1 rest]
      simp only [matching_turns, List.countP_cons, List.tail_cons]
      by_cases hb : c1.pc = .branch ∧ c1.loc.is_match = true
      · simp [hb.1, hb.2]; ring
      · rw [if_neg hb]
        have : (decide (c1.pc = .branch) && c1.loc.is_match) = false := by
          rw [Bool.and_eq_false_iff]
          by_cases h1 : c1.pc = .branch
          · right; simpa [h1] using hb
          · left; simp [h1]
        simp [this]

/-! ## The demo game -/

theorem demo_init : initialize_board demo_rand (fun _ => 0) zero_state = some demo_state := by
  obtain ⟨σ, h⟩ := initialize_board_eq demo_rand (fun _ => 0) zero_state
  unfold demo_state
  rw [h]
  rfl

theorem getLast?_mem {α : Type} {l : List α} {a : α} (h : l.getLast? = some a) : a ∈ l := by
  rw [List.getLast?_eq_some_iff] at h
  obtain ⟨ys, rfl⟩ := h
  simp

/-- The configurations of the demo game are reachable. -/
theorem demo_reachable (n : Nat) (input : List Attempt) : Reachable (demo_config n input) := by
  refine ⟨demo_rand, fun _ => 0, zero_state, no_locals, n + 1, input, ?_⟩
  have hs : step { pc := .loop_test, st := demo_state, loc := no_locals } input
      = some ({ pc := .ask_first, st := demo_state, loc := no_locals }, input) := by
    have : demo_state.matched_pairs = 0 := by decide
    simp [step, is_game_won, this]
  unfold play_game
  rw [demo_init]
  simp only
  rw [trace_succ_of_step n hs]
  apply List.mem_cons_of_mem
  unfold demo_config
  cases hl : (trace n { pc := .ask_first, st := demo_state, loc := no_locals } input).getLast? with
  | none => exact head_mem_trace _ _ _
  | some c => exact getLast?_mem hl

/-! ## A whole turn -/

theorem hideCard_turned_up (c : Card) (hm : c.is_matched = false)
    (hf : c.is_flipped = false) : hideCard { c with is_flipped := true } = c := by
  obtain ⟨v, f, m⟩ := c
  simp only at hm hf
  subst hm hf
  rfl

theorem hideCard_same (c : Card) (h : c.is_flipped = c.is_matched) : hideCard c = c := by
  obtain ⟨v, f, m⟩ := c
  simp only at h
  subst h
  cases f <;> rfl

/-- The states of a turn in which two inputs are accepted and flipped. -/
theorem turn_states {s : State} {loc : Locals}
    (h : Reachable { pc := .ask_first, st := s, loc := loc })
    {a1 a2 : Attempt} {res1 res2 : InputResult} {s1 s2 : State}
    (h1 : get_player_input s loc.row1 loc.col1 a1 = some (res1, s)) (hr1 : res1.ret = true)
    (hf1 : flip_card s res1.row res1.col = some (true, s1))
    (h2 : get_player_input s1 loc.row2 loc.col2 a2 = some (res2, s1)) (hr2 : res2.ret = true)
    (hf2 : flip_card s1 res2.row res2.col = some (true, s2)) :
    ∃ p q : Cell, Names res1.row res1.col p ∧ Names res2.row res2.col q ∧ p ≠ q ∧
      FaceUp s.board [] ∧ s.flipped_count = 0 ∧
      (s.board.card p).is_matched = false ∧ (s.board.card q).is_matched = false ∧
      (∀ r, s2.board.card r
        = if r = p ∨ r = q then { s.board.card r with is_flipped := true }
          else s.board.card r) ∧
      Names (s2.flipped_cards 0 0) (s2.flipped_cards 0 1) p ∧
      Names (s2.flipped_cards 1 0) (s2.flipped_cards 1 1) q ∧
      s2.flipped_count = 2 ∧ s2.matched_pairs = s.matched_pairs := by
  obtain ⟨_, _, hc, hf⟩ := reachable_inv h
  simp only at hc hf
  obtain ⟨_, p, hp, hpm, hpf⟩ := get_player_input_accepted h1 hr1
  have hk : index? 2 s.flipped_count = some 0 := by rw [hc]; rfl
  obtain ⟨s1', hflip, hb1, h10, h11, _, hcnt1, hmp1⟩ := flip_card_spec hp hk
  rw [hflip] at hf1
  simp only [Option.some.injEq, Prod.mk.injEq, true_and] at hf1
  subst hf1
  obtain ⟨_, q, hq, hqm, hqf⟩ := get_player_input_accepted h2 hr2
  have hne : p ≠ q := by
    intro e
    subst e
    rw [hb1, if_pos rfl] at hqf
    simp at hqf
  have hqp : ¬ q = p := fun e => hne e.symm
  have hk1 : index? 2 s1'.flipped_count = some 1 := by rw [hcnt1, hc]; rfl
  obtain ⟨s2', hflip2, hb2, h20, h21, hoth, hcnt2, hmp2⟩ := flip_card_spec hq hk1
  rw [hflip2] at hf2
  simp only [Option.some.injEq, Prod.mk.injEq, true_and] at hf2
  subst hf2
  rw [hb1, if_neg hqp] at hqm
  refine ⟨p, q, hp, hq, hne, hf, hc, hpm, hqm, ?_, ?_,
    ⟨by rw [h20]; exact hq.1, by rw [h21]; exact hq.2⟩, ?_, ?_⟩
  · intro r
    rw [hb2, hb1]
    by_cases hrq : r = q
    · subst hrq; simp [hqp]
    · by_cases hrp : r = p
      · subst hrp; simp [hrq]
      · simp [hrq, hrp]
  · exact ⟨by rw [hoth 0 0 (by decide), h10]; exact hp.1,
      by rw [hoth 0 1 (by decide), h11]; exact hp.2⟩
  · rw [hcnt2, hcnt1, hc]; rfl
  · rw [hmp2, hmp1]

/-! ## Further lemmas on the loop of `play_game` -/

theorem inv_flipped_count {c : Config} (h : Inv c) :
    (c.pc = .loop_test → c.st.flipped_count = 0) ∧
    (c.pc = .ask_first → c.st.flipped_count = 0) ∧
    (c.pc = .flip_first → c.st.flipped_count = 0) ∧
    (c.pc = .ask_second → c.st.flipped_count = 1) ∧
    (c.pc = .flip_second → c.st.flipped_count = 1) ∧
    (c.pc = .check → c.st.flipped_count = 2) ∧
    (c.pc = .branch → c.st.flipped_count = 2) ∧
    (c.pc = .reset → c.st.flipped_count = 2) ∧
    (c.pc = .finished → c.st.flipped_count = 0) := by
  obtain ⟨pc, s, loc⟩ := c
  obtain ⟨_, _, h⟩ := h
  cases pc <;> simp only [reduceCtorEq, false_implies, true_implies, true_and, and_true] <;>
    exact h.1

/-- On a board that satisfies the pairing and the value-closure of matched cards, the
matched cards are the cards of a set of values, two per value. -/
theorem matched_values {b : Board} (hp : Paired b) (hm : MatchedByValue b) :
    ∃ V : Finset Int,
      countCards b (fun k => k.is_matched) = 2 * V.card ∧
      (∀ v ∈ V, 1 ≤ v ∧ v ≤ (PAIRS : Int)) ∧
      (∀ v ∈ V, countCards b (fun k => k.value == v && k.is_matched) = 2) ∧
      ∀ r : Cell, (b.card r).is_matched = true ↔ (b.card r).value ∈ V := by
  classical
  let M : Finset Cell := Finset.univ.filter (fun r => (b.card r).is_matched = true)
  let V : Finset Int := M.image (fun r => (b.card r).value)
  have hiff : ∀ r : Cell, (b.card r).is_matched = true ↔ (b.card r).value ∈ V := by
    intro r
    constructor
    · intro hr
      exact Finset.mem_image.2 ⟨r, by simp [M, hr], rfl⟩
    · intro hr
      obtain ⟨r', hr', hv⟩ := Finset.mem_image.1 hr
      have hr'm : (b.card r').is_matched = true := by simpa [M] using hr'
      rw [← hm r' r hv]
      exact hr'm
  have hfiber : ∀ v ∈ V, M.filter (fun r => (b.card r).value = v)
      = Finset.univ.filter (fun c : Fin ROWS × Fin COLS => ((b c.1 c.2).value == v) = true) := by
    intro v hv
    ext r
    simp only [Finset.mem_filter, Finset.mem_univ, true_and, beq_iff_eq, M]
    constructor
    · exact fun h => h.2
    · intro h
      refine ⟨(hiff r).2 ?_, h⟩
      have : (b.card r).value = v := h
      rw [this]; exact hv
  have hrange : ∀ v ∈ V, 1 ≤ v ∧ v ≤ (PAIRS : Int) := by
    intro v hv
    obtain ⟨r, _, hr⟩ := Finset.mem_image.1 hv
    have hcount := hp v
    by_contra hn
    rw [if_neg hn] at hcount
    unfold countCards at hcount
    rw [Finset.card_eq_zero, Finset.filter_eq_empty_iff] at hcount
    exact hcount (Finset.mem_univ r) (by simpa [Board.card] using hr)
  have htwo : ∀ v ∈ V, (M.filter (fun r => (b.card r).value = v)).card = 2 := by
    intro v hv
    rw [hfiber v hv]
    have hcount := hp v
    rw [if_pos (hrange v hv)] at hcount
    exact hcount
  refine ⟨V, ?_, hrange, ?_, hiff⟩
  · have hM : countCards b (fun k => k.is_matched) = M.card := by
      unfold countCards
      congr 1
    rw [hM, Finset.card_eq_sum_card_image (fun r => (b.card r).value) M]
    rw [Finset.sum_congr rfl htwo]
    simp [V, mul_comm]
  · intro v hv
    rw [← htwo v hv]
    unfold countCards
    congr 1
    ext r
    simp only [Finset.mem_filter, Finset.mem_univ, true_and, Bool.and_eq_true, beq_iff_eq, M,
      Board.card]
    tauto

theorem all_matched_iff (b : Board) :
    countCards b (fun k => k.is_matched) = TOTAL_CARDS ↔
      ∀ r : Cell, (b.card r).is_matched = true := by
  unfold countCards
  have hu : (Finset.univ : Finset (Fin ROWS × Fin COLS)).card = TOTAL_CARDS := by simp
  rw [← hu, Finset.card_filter_eq_iff]
  constructor
  · intro h r; exact h r (Finset.mem_univ r)
  · intro h r _; exact h r

/-! ## Runs and winning play -/

theorem run_add (m n : Nat) : ∀ (c : Config) (input : List Attempt),
    run (m + n) c input = (run m c input).bind (fun r => run n r.1 r.2) := by
  induction m with
  | zero => intro c input; simp [run]
  | succ m ih =>
    intro c input
    rw [Nat.succ_add]
    simp only [run]
    cases hs : step c input with
    | none => rfl
    | some r => exact ih r.1 r.2

theorem run_last (n : Nat) : ∀ (c c' : Config) (input rest : List Attempt),
    run n c input = some (c', rest) → (trace n c input).getLast? = some c' := by
  induction n with
  | zero =>
    intro c c' input rest h
    simp only [run, Option.some.injEq, Prod.mk.injEq] at h
    simp [trace, h.1]
  | succ n ih =>
    intro c c' input rest h
    simp only [run] at h
    cases hs : step c input with
    | none => rw [hs] at h; exact absurd h (by simp)
    | some r =>
      obtain ⟨c1, rest1⟩ := r
      rw [hs] at h
      rw [trace_succ_of_step n hs, trace_eq_cons, List.getLast?_cons_cons, ← trace_eq_cons]
      exact ih c1 c' rest1 rest h

theorem inv_run (n : Nat) : ∀ (c c' : Config) (input rest : List Attempt), Inv c →
    run n c input = some (c', rest) → Inv c' := by
  intro c c' input rest hi h
  exact inv_trace n c input hi c' (getLast?_mem (run_last n c c' input rest h))

theorem exists_unmatched {c : Config} (hi : Inv c) (hw : c.st.matched_pairs ≠ (PAIRS : Int)) :
    ∃ p : Cell, (c.st.board.card p).is_matched = false := by
  by_contra hn
  have hall : ∀ r : Cell, (c.st.board.card r).is_matched = true := by
    intro r
    by_contra hr
    exact hn ⟨r, by simpa using hr⟩
  have hcount := (all_matched_iff c.st.board).2 hall
  have hn' := hi.2.1
  rw [hcount] at hn'
  apply hw
  have hP : ((PAIRS : Nat) : Int) = 8 := rfl
  have hT : ((TOTAL_CARDS : Nat) : Int) = 16 := rfl
  omega

/-- On a paired board every card has a partner: another cell with the same value. -/
theorem exists_partner {b : Board} (hb : Paired b) (p : Cell) :
    ∃ q : Cell, q ≠ p ∧ (b.card q).value = (b.card p).value := by
  have hcount := hb (b.card p).value
  unfold countCards at hcount
  have hp : p ∈ Finset.univ.filter
      (fun c : Fin ROWS × Fin COLS => ((b c.1 c.2).value == (b.card p).value) = true) := by
    simp [Board.card]
  have hcard : (Finset.univ.filter
      (fun c : Fin ROWS × Fin COLS => ((b c.1 c.2).value == (b.card p).value) = true)).card
      = 2 := by
    rw [hcount]
    split
    · rfl
    · rename_i hn
      rw [if_neg hn] at hcount
      rw [Finset.card_eq_zero] at hcount
      rw [hcount] at hp
      exact absurd hp (Finset.not_mem_empty p)
  obtain ⟨x, y, hxy, hset⟩ := Finset.card_eq_two.1 hcard
  have hx : x ∈ ({x, y} : Finset Cell) := by simp
  have hy : y ∈ ({x, y} : Finset Cell) := by simp
  rw [← hset] at hx hy
  simp only [Finset.mem_filter, Finset.mem_univ, true_and, beq_iff_eq] at hx hy
  rw [hset] at hp
  simp only [Finset.mem_insert, Finset.mem_singleton] at hp
  rcases hp with e | e
  · exact ⟨y, by rw [e]; exact fun h => hxy h.symm, hy⟩
  · exact ⟨x, by rw [e]; exact hxy, hx⟩

theorem get_player_input_accepts_cell (s : State) (row col : Int) (p : Cell)
    (hm : (s.board.card p).is_matched = false) (hf : (s.board.card p).is_flipped = false) :
    get_player_input s row col (.coords ((p.1.val : Int) + 1) ((p.2.val : Int) + 1))
      = some ({ ret := true, row := (p.1.val : Int), col := (p.2.val : Int), printed := none },
          s) := by
  have hp : Names ((p.1.val : Int) + 1 - 1) ((p.2.val : Int) + 1 - 1) p :=
    ⟨by omega, by omega⟩
  rw [get_player_input_coords, cardAt?_names hp]
  simp [hm, hf]

/-- After an accepted first selection naming the cell `p`, the partner of `p` is accepted
as second selection. -/
theorem partner_accepted {s : State} (hpair : Paired s.board ∧ MatchedByValue s.board)
    (hc : s.flipped_count = 0) (hf : FaceUp s.board []) {p : Cell}
    (hpm : (s.board.card p).is_matched = false) :
    ∃ s1, flip_card s (p.1.val : Int) (p.2.val : Int) = some (true, s1) ∧
      s1.flipped_count = 1 ∧ s1.matched_pairs = s.matched_pairs ∧
      (∀ r, s1.board.card r
        = if r = p then { s.board.card r with is_flipped := true } else s.board.card r) ∧
      Names (s1.flipped_cards 0 0) (s1.flipped_cards 0 1) p ∧
      ∃ q : Cell, q ≠ p ∧ (s.board.card q).value = (s.board.card p).value ∧
        (s.board.card q).is_matched = false ∧
        ∀ row col : Int,
          get_player_input s1 row col (.coords ((q.1.val : Int) + 1) ((q.2.val : Int) + 1))
            = some ({ ret := true, row := (q.1.val : Int), col := (q.2.val : Int),
                      printed := none }, s1) := by
  have hk : index? 2 s.flipped_count = some 0 := by rw [hc]; rfl
  obtain ⟨s1, hflip, hb, h0, h1, _, hcnt, hmp⟩ :=
    @flip_card_spec s (p.1.val : Int) (p.2.val : Int) p 0 ⟨rfl, rfl⟩ hk
  obtain ⟨q, hqp, hqv⟩ := exists_partner hpair.1 p
  have hqm : (s.board.card q).is_matched = false := by
    rw [hpair.2 q p hqv]; exact hpm
  have hqf : (s.board.card q).is_flipped = false := by
    have := hf q
    simpa [hqm] using this
  refine ⟨s1, hflip, by rw [hcnt, hc]; rfl, hmp, hb, ⟨h0, h1⟩, q, hqp, hqv, hqm, fun row col => ?_⟩
  apply get_player_input_accepts_cell
  · rw [hb, if_neg hqp]; exact hqm
  · rw [hb, if_neg hqp]; exact hqf

/-- From the loop test with the game not won there are two inputs that make a matching
turn: 8 steps later the run is back at the loop test with one more matched pair. -/
theorem matching_turn_run (s : State) (loc : Locals)
    (hi : Inv { pc := .loop_test, st := s, loc := loc })
    (hw : s.matched_pairs ≠ (PAIRS : Int)) :
    ∃ (a1 a2 : Attempt) (s' : State) (loc' : Locals),
      s'.matched_pairs = s.matched_pairs + 1 ∧
      ∀ more : List Attempt,
        run 8 { pc := .loop_test, st := s, loc := loc } (a1 :: a2 :: more)
          = some ({ pc := .loop_test, st := s', loc := loc' }, more) := by
  obtain ⟨p, hpm⟩ := exists_unmatched hi hw
  simp only at hpm
  obtain ⟨hpair, hn, hc, hf⟩ := hi
  simp only at hpair hn hc hf
  have hpf : (s.board.card p).is_flipped = false := by
    have := hf p
    simpa [hpm] using this
  obtain ⟨s1, hflip1, hcnt1, hmp1, hb1, hsel1, q, hqp, hqv, hqm, hacc2⟩ :=
    partner_accepted hpair hc hf hpm
  have hk1 : index? 2 s1.flipped_count = some 1 := by rw [hcnt1]; rfl
  obtain ⟨s2, hflip2, hb2, h20, h21, hoth, hcnt2, hmp2⟩ :=
    @flip_card_spec s1 (q.1.val : Int) (q.2.val : Int) q 1 ⟨rfl, rfl⟩ hk1
  have hs1 : Names (s2.flipped_cards 0 0) (s2.flipped_cards 0 1) p :=
    ⟨by rw [hoth 0 0 (by decide)]; exact hsel1.1, by rw [hoth 0 1 (by decide)]; exact hsel1.2⟩
  have hs2 : Names (s2.flipped_cards 1 0) (s2.flipped_cards 1 1) q := ⟨h20, h21⟩
  have hv : (s2.board.card p).value = (s2.board.card q).value := by
    have hpq : ¬ p = q := fun e => hqp e.symm
    rw [hb2, hb2, if_neg hpq, if_pos rfl, hb1, hb1, if_pos rfl, if_neg hqp]
    exact hqv.symm
  obtain ⟨b, s3, hcm, hiff, _, htrue⟩ := check_match_spec hs1 hs2
  have hbt : b = true := hiff.2 hv
  subst hbt
  obtain ⟨_, hmp3, _, _⟩ := htrue rfl
  have hw' : ¬ s.matched_pairs = 8 := by simpa using hw
  refine ⟨.coords ((p.1.val : Int) + 1) ((p.2.val : Int) + 1),
    .coords ((q.1.val : Int) + 1) ((q.2.val : Int) + 1), { s3 with flipped_count := 0 },
    { row1 := (p.1.val : Int), col1 := (p.2.val : Int), row2 := (q.1.val : Int),
      col2 := (q.2.val : Int), is_match := true },
    by rw [hmp3, hmp2, hmp1, wrap32_succ_of_count hn], ?_⟩
  intro more
  simp [run, step, is_game_won, hw', get_player_input_accepts_cell s _ _ p hpm hpf,
    hflip1, hacc2, hflip2, hcm]

theorem win_from : ∀ (k : Nat) (s : State) (loc : Locals),
    Inv { pc := .loop_test, st := s, loc := loc } → s.matched_pairs + (k : Int) = (PAIRS : Int) →
    ∃ input : List Attempt, input.length = 2 * k ∧ ∃ (s' : State) (loc' : Locals),
      run (8 * k) { pc := .loop_test, st := s, loc := loc } input
        = some ({ pc := .loop_test, st := s', loc := loc' }, []) ∧
      s'.matched_pairs = (PAIRS : Int) := by
  intro k
  induction k with
  | zero =>
    intro s loc _ h
    exact ⟨[], rfl, s, loc, rfl, by simpa using h⟩
  | succ k ih =>
    intro s loc hi h
    have hk : ((k + 1 : Nat) : Int) = (k : Int) + 1 := by push_cast; rfl
    rw [hk] at h
    have hw : s.matched_pairs ≠ (PAIRS : Int) := by
      intro e; rw [e] at h; omega
    obtain ⟨a1, a2, s1, loc1, hmp, hrun⟩ := matching_turn_run s loc hi hw
    have hi1 : Inv { pc := .loop_test, st := s1, loc := loc1 } :=
      inv_run 8 _ _ _ _ hi (hrun [])
    obtain ⟨input, hlen, s', loc', hrun', hfin⟩ := ih s1 loc1 hi1 (by rw [hmp]; omega)
    refine ⟨a1 :: a2 :: input, by simp [hlen]; omega, s', loc', ?_, hfin⟩
    have e : 8 * (k + 1) = 8 + 8 * k := by omega
    rw [e, run_add, hrun input]
    exact hrun'

/-- From every board that `initialize_board` produces, 16 suitable inputs make 8 matching
turns: after 64 steps the run is at the loop test with all 8 pairs matched. -/
theorem winning_run (rand : Nat → Nat) (uninit : Values) (s0 : State) (loc0 : Locals) :
    ∃ input : List Attempt, input.length = 16 ∧ ∃ last,
      (play_game rand uninit s0 loc0 64 input).getLast? = some last ∧
      last.pc = .loop_test ∧ (is_game_won last.st).1 = true ∧
      matching_turns (play_game rand uninit s0 loc0 64 input) = 8 := by
  obtain ⟨s', hs', hmp0, _⟩ := initialize_board_defined rand uninit s0
  have hi := inv_init loc0 hs'
  obtain ⟨input, hlen, s'', loc', hrun, hfin⟩ := win_from 8 s' loc0 hi (by rw [hmp0]; rfl)
  have hlast := run_last 64 _ _ _ _ hrun
  obtain ⟨last, hl, _, hc⟩ := trace_count 64 _ input hi
  rw [hlast] at hl
  simp only [Option.some.injEq] at hl
  subst hl
  have hpg : play_game rand uninit s0 loc0 64 input
      = trace 64 { pc := .loop_test, st := s', loc := loc0 } input := by
    unfold play_game; rw [hs']
  have hmt : matching_turns (trace 64 { pc := .loop_test, st := s', loc := loc0 } input)
      = matching_turns (trace 64 { pc := .loop_test, st := s', loc := loc0 } input).tail := by
    conv_lhs => rw [trace_eq_cons]
    simp [matching_turns]
  refine ⟨input, hlen, _, by rw [hpg]; exact hlast, rfl, ?_, ?_⟩
  · simp only [is_game_won, decide_eq_true_eq]; exact hfin
  · rw [hpg, hmt]
    simp only [hmp0, zero_add] at hc
    rw [hfin] at hc
    have hP : ((PAIRS : Nat) : Int) = 8 := rfl
    omega

/-! ## The shuffle as a map from choice sequences to permutations -/

theorem card_choices : Fintype.card Choices = Nat.factorial 16 := by
  rw [Fintype.card_pi]
  simp only [Fintype.card_fin]
  rw [Fin.prod_univ_eq_prod_range (fun k => TOTAL_CARDS - k) (TOTAL_CARDS - 1)]
  decide

theorem shuffle_perm_fixes (rand : Nat → Nat) : ∀ (i : Nat) (h : i < TOTAL_CARDS) (k : Nat)
    (x : Fin TOTAL_CARDS), i < x.val → shuffle_perm rand i h k x = x := by
  intro i
  induction i with
  | zero => intro h k x _; rfl
  | succ i ih =>
    intro h k x hx
    simp only [shuffle_perm, Equiv.trans_apply]
    rw [ih (Nat.lt_of_succ_lt h) (k + 1) x (by omega)]
    apply Equiv.swap_apply_of_ne_of_ne
    · intro e; rw [e] at hx; simp at hx
    · intro e
      rw [e] at hx
      have hlt : rand k % (i + 1 + 1) < i + 1 + 1 := Nat.mod_lt _ (by omega)
      have hx' : i + 1 < rand k % (i + 1 + 1) := hx
      omega

theorem shuffle_perm_inj (r r' : Nat → Nat) : ∀ (i : Nat) (h : i < TOTAL_CARDS) (k : Nat),
    shuffle_perm r i h k = shuffle_perm r' i h k →
    ∀ m < i, r (k + m) % (i - m + 1) = r' (k + m) % (i - m + 1) := by
  intro i
  induction i with
  | zero => intro h k _ m hm; omega
  | succ i ih =>
    intro h k he m hm
    have htop : ∀ ρ : Nat → Nat, shuffle_perm ρ (i + 1) h k ⟨i + 1, h⟩
        = ⟨ρ k % (i + 1 + 1), lt_of_lt_of_le (Nat.mod_lt _ (Nat.succ_pos _)) h⟩ := by
      intro ρ
      simp only [shuffle_perm, Equiv.trans_apply]
      rw [shuffle_perm_fixes ρ i (Nat.lt_of_succ_lt h) (k + 1) ⟨i + 1, h⟩ (by simp)]
      exact Equiv.swap_apply_left _ _
    have hj : r k % (i + 1 + 1) = r' k % (i + 1 + 1) := by
      have := congrArg (fun σ : Equiv.Perm (Fin TOTAL_CARDS) => (σ ⟨i + 1, h⟩).val) he
      simp only [htop] at this
      exact this
    cases m with
    | zero => simpa using hj
    | succ m =>
      have he' : shuffle_perm r i (Nat.lt_of_succ_lt h) (k + 1)
          = shuffle_perm r' i (Nat.lt_of_succ_lt h) (k + 1) := by
        simp only [shuffle_perm, hj] at he
        have := congrArg (fun e : Equiv.Perm (Fin TOTAL_CARDS) => e.trans
          (Equiv.swap ⟨i + 1, h⟩
            ⟨r' k % (i + 1 + 1), lt_of_lt_of_le (Nat.mod_lt _ (Nat.succ_pos _)) h⟩).symm) he
        simpa [Equiv.trans_assoc] using this
      have := ih (Nat.lt_of_succ_lt h) (k + 1) he' m (by omega)
      have e1 : k + (m + 1) = k + 1 + m := by omega
      have e2 : i + 1 - (m + 1) = i - m := by omega
      rw [e1, e2]
      exact this

/-- One iteration of the shuffle loop is the swap of positions `i + 1` and
`j = rand k % (i + 2)`, followed by the rest of the loop. -/
theorem shuffle_loop_succ (rand : Nat → Nat) (i k : Nat) (values : Values)
    (h : i + 1 < TOTAL_CARDS) :
    shuffle_loop rand (i + 1) k values
      = shuffle_loop rand i (k + 1) (values ∘ Equiv.swap ⟨i + 1, h⟩
          ⟨rand k % (i + 1 + 1), lt_of_lt_of_le (Nat.mod_lt _ (Nat.succ_pos _)) h⟩) := by
  have hj : rand k % (i + 1 + 1) < TOTAL_CARDS :=
    lt_of_lt_of_le (Nat.mod_lt _ (Nat.succ_pos _)) h
  simp only [shuffle_loop, read?, write?, index?_of_lt _ h, index?_of_lt _ hj,
    Option.map_some', Option.bind_eq_bind, Option.some_bind, swap_writes]

theorem shuffle_loop_eq (rand : Nat → Nat) : ∀ (i : Nat) (h : i < TOTAL_CARDS) (k : Nat)
    (values : Values),
    shuffle_loop rand i k values = some (values ∘ shuffle_perm rand i h k) := by
  intro i
  induction i with
  | zero => intro h k values; rfl
  | succ i ih =>
    intro h k values
    rw [shuffle_loop_succ rand i k values h, ih (Nat.lt_of_succ_lt h)]
    rfl

theorem labels_injective : Function.Injective labels := by
  intro a b h
  simp only [labels] at h
  exact Fin.ext (by exact_mod_cast h)

theorem rand_of_mod (js : Choices) (m : Nat) (h : m < TOTAL_CARDS - 1) :
    rand_of js m % (TOTAL_CARDS - 1 - m + 1) = (js ⟨m, h⟩).val := by
  have hlt := (js ⟨m, h⟩).isLt
  simp only [rand_of, dif_pos h]
  apply Nat.mod_eq_of_lt
  simp only at hlt
  omega

theorem shuffle_perm_choices_injective :
    Function.Injective (fun js : Choices =>
      shuffle_perm (rand_of js) (TOTAL_CARDS - 1) (by decide) 0) := by
  intro js js' he
  funext k
  have := shuffle_perm_inj (rand_of js) (rand_of js') (TOTAL_CARDS - 1) (by decide) 0 he
    k.val k.isLt
  rw [Nat.zero_add, rand_of_mod js k.val k.isLt, rand_of_mod js' k.val k.isLt] at this
  exact Fin.ext this

theorem shuffle_perm_choices_bijective :
    Function.Bijective (fun js : Choices =>
      shuffle_perm (rand_of js) (TOTAL_CARDS - 1) (by decide) 0) := by
  rw [Fintype.bijective_iff_injective_and_card]
  exact ⟨shuffle_perm_choices_injective, by rw [card_choices, Fintype.card_perm]; rfl⟩

/-! ## Properties of the game -/

/-- C1: for every stream of `rand()` values, whatever the local array and the globals held
before, `initialize_board` returns; the board it leaves has `TOTAL_CARDS = 16` cells, each
of the integers `1..PAIRS` (`PAIRS = 8`) is the value of exactly two cells, and no other
value is the value of any cell. -/
theorem initialize_board_pairs (rand : Nat → Nat) (uninit : Values) (s : State) :
    ∃ s', initialize_board rand uninit s = some s' ∧
      countCards s'.board (fun _ => true) = TOTAL_CARDS ∧ TOTAL_CARDS = 16 ∧ PAIRS = 8 ∧
      ∀ v : Int, countCards s'.board (fun c => c.value == v)
        = if 1 ≤ v ∧ v ≤ (PAIRS : Int) then 2 else 0 := by
  obtain ⟨σ, hσ⟩ := initialize_board_eq rand uninit s
  exact ⟨_, hσ, by simp [countCards], rfl, rfl, paired_shuffled σ⟩

/-- C2, as amended: when `flipped_cards` holds the coordinates of two cells `p` and `q` of
the board and `matched_pairs`, a 32-bit `int`, is below `INT_MAX = 2147483647`,
`check_match` returns, and it returns true exactly when the cards in `p` and `q` have equal
values.  When it returns true, the new board is the old one with `is_matched` set on the
cards in `p` and `q` and nothing else changed, `matched_pairs` is one more, and
`flipped_cards` and `flipped_count` are as before.  When it returns false the state is the
one before the call, so both selected cards keep their `is_flipped`. -/
theorem check_match_iff_equal_values (s : State) (p q : Cell)
    (hp : Names (s.flipped_cards 0 0) (s.flipped_cards 0 1) p)
    (hq : Names (s.flipped_cards 1 0) (s.flipped_cards 1 1) q)
    (hlo : -2147483648 ≤ s.matched_pairs) (hhi : s.matched_pairs < 2147483647) :
    ∃ b s', check_match s = some (b, s') ∧
      (b = true ↔ (s.board.card p).value = (s.board.card q).value) ∧
      (b = true →
        (∀ r, s'.board.card r
          = if r = p ∨ r = q then { s.board.card r with is_matched := true }
            else s.board.card r) ∧
        s'.matched_pairs = s.matched_pairs + 1 ∧ s'.flipped_cards = s.flipped_cards ∧
        s'.flipped_count = s.flipped_count) ∧
      (b = false → s' = s ∧
        (s'.board.card p).is_flipped = (s.board.card p).is_flipped ∧
        (s'.board.card q).is_flipped = (s.board.card q).is_flipped) := by
  obtain ⟨b, s', h, hiff, hfalse, htrue⟩ := check_match_spec hp hq
  refine ⟨b, s', h, hiff, fun hb => ?_, fun hb => ?_⟩
  · obtain ⟨hcards, hmp, hfc, hcnt⟩ := htrue hb
    rw [wrap32_succ_of_bounds hlo hhi] at hmp
    exact ⟨hcards, hmp, hfc, hcnt⟩
  · have e := hfalse hb
    subst e
    exact ⟨rfl, rfl, rfl⟩

/-- Instance of C2 as amended: in the demo game after `(1,1)` and `(2,1)` have been typed
and flipped, `flipped_cards` names the cells `(0,0)` and `(1,0)` and `matched_pairs` is 0. -/
theorem check_match_iff_equal_values_witness :
    Names ((demo_after 4 [.coords 1 1, .coords 2 1]).flipped_cards 0 0)
        ((demo_after 4 [.coords 1 1, .coords 2 1]).flipped_cards 0 1) (0, 0) ∧
    Names ((demo_after 4 [.coords 1 1, .coords 2 1]).flipped_cards 1 0)
        ((demo_after 4 [.coords 1 1, .coords 2 1]).flipped_cards 1 1) (1, 0) ∧
    -2147483648 ≤ (demo_after 4 [.coords 1 1, .coords 2 1]).matched_pairs ∧
    (demo_after 4 [.coords 1 1, .coords 2 1]).matched_pairs < 2147483647 ∧
    ∃ b s', check_match (demo_after 4 [.coords 1 1, .coords 2 1]) = some (b, s') ∧
      (b = true ↔ ((demo_after 4 [.coords 1 1, .coords 2 1]).board.card (0, 0)).value
        = ((demo_after 4 [.coords 1 1, .coords 2 1]).board.card (1, 0)).value) ∧
      (b = true →
        (∀ r, s'.board.card r
          = if r = (0, 0) ∨ r = (1, 0) then
              { (demo_after 4 [.coords 1 1, .coords 2 1]).board.card r with is_matched := true }
            else (demo_after 4 [.coords 1 1, .coords 2 1]).board.card r) ∧
        s'.matched_pairs = (demo_after 4 [.coords 1 1, .coords 2 1]).matched_pairs + 1 ∧
        s'.flipped_cards = (demo_after 4 [.coords 1 1, .coords 2 1]).flipped_cards ∧
        s'.flipped_count = (demo_after 4 [.coords 1 1, .coords 2 1]).flipped_count) ∧
      (b = false → s' = demo_after 4 [.coords 1 1, .coords 2 1] ∧
        (s'.board.card (0, 0)).is_flipped
          = ((demo_after 4 [.coords 1 1, .coords 2 1]).board.card (0, 0)).is_flipped ∧
        (s'.board.card (1, 0)).is_flipped
          = ((demo_after 4 [.coords 1 1, .coords 2 1]).board.card (1, 0)).is_flipped) :=
  ⟨⟨by decide, by decide⟩, ⟨by decide, by decide⟩, by decide, by decide,
    check_match_iff_equal_values (demo_after 4 [.coords 1 1, .coords 2 1]) (0, 0) (1, 0)
      ⟨by decide, by decide⟩ ⟨by decide, by decide⟩ (by decide) (by decide)⟩

/-- C2 as stated fails: with `flipped_cards` naming the in-bounds cells `(3,3)` and `(3,2)`,
whose cards both have value 8, and `matched_pairs = 2147483647`, `check_match` returns
true and the 32-bit increment leaves `matched_pairs = -2147483648`, not one more. -/
theorem check_match_overflow :
    Names (overflow_state.flipped_cards 0 0) (overflow_state.flipped_cards 0 1) (3, 3) ∧
    Names (overflow_state.flipped_cards 1 0) (overflow_state.flipped_cards 1 1) (3, 2) ∧
    (overflow_state.board.card (3, 3)).value = 8 ∧
    (overflow_state.board.card (3, 2)).value = 8 ∧
    overflow_state.matched_pairs = 2147483647 ∧
    ∃ s', check_match overflow_state = some (true, s') ∧
      s'.matched_pairs = -2147483648 ∧
      s'.matched_pairs ≠ overflow_state.matched_pairs + 1 := by
  have hp : Names (overflow_state.flipped_cards 0 0) (overflow_state.flipped_cards 0 1)
      (3, 3) := ⟨by decide, by decide⟩
  have hq : Names (overflow_state.flipped_cards 1 0) (overflow_state.flipped_cards 1 1)
      (3, 2) := ⟨by decide, by decide⟩
  have hm : overflow_state.matched_pairs = 2147483647 := rfl
  have hw : wrap32 (2147483647 + 1) = -2147483648 := by decide
  obtain ⟨b, s', h, hiff, _, htrue⟩ := check_match_spec hp hq
  have hb : b = true := hiff.2 (by decide)
  subst hb
  obtain ⟨_, hmp, _, _⟩ := htrue rfl
  rw [hm, hw] at hmp
  exact ⟨hp, hq, by decide, by decide, hm, s', h, hmp, by rw [hmp, hm]; decide⟩

/-- C3: for every board and every pair of integers `(r, c)` typed by the player,
`get_player_input` returns and leaves `(r - 1, c - 1)` in `*row`, `*col`.  It returns true
exactly when `1 ≤ r ≤ 4`, `1 ≤ c ≤ 4` and the card at 0-based `(r - 1, c - 1)` is neither
matched nor flipped.  It prints the out-of-bounds diagnostic exactly when the coordinate is
outside the grid, the already-matched one exactly when the card there is matched (flipped or
not), and the already-flipped one exactly when the card there is flipped and not matched;
a rejection always comes with one of the three.  A row typed as 5 is out of bounds. -/
theorem get_player_input_accepts_iff (s : State) (row col r c : Int) :
    ∃ res, get_player_input s row col (.coords r c) = some (res, s) ∧
      res.row = r - 1 ∧ res.col = c - 1 ∧
      (res.ret = true ↔ (1 ≤ r ∧ r ≤ (ROWS : Int)) ∧ (1 ≤ c ∧ c ≤ (COLS : Int)) ∧
        ∃ card, cardAt? s.board (r - 1) (c - 1) = some card ∧
          card.is_matched = false ∧ card.is_flipped = false) ∧
      (res.printed = some .invalid_input ↔
        ¬((1 ≤ r ∧ r ≤ (ROWS : Int)) ∧ (1 ≤ c ∧ c ≤ (COLS : Int)))) ∧
      (res.printed = some .already_matched ↔
        ∃ card, cardAt? s.board (r - 1) (c - 1) = some card ∧ card.is_matched = true) ∧
      (res.printed = some .already_flipped ↔
        ∃ card, cardAt? s.board (r - 1) (c - 1) = some card ∧
          card.is_matched = false ∧ card.is_flipped = true) ∧
      (res.ret = false ↔ res.printed ≠ none) ∧
      (r = 5 → res.ret = false ∧ res.printed = some .invalid_input) := by
  have hR : ((ROWS : Nat) : Int) = 4 := rfl
  have hC : ((COLS : Nat) : Int) = 4 := rfl
  refine ⟨_, get_player_input_coords s row col r c, ?_⟩
  cases hc : cardAt? s.board (r - 1) (c - 1) with
  | none =>
    have hb := (cardAt?_eq_none_iff _ _ _).1 hc
    simp
    omega
  | some card =>
    have hb : 0 ≤ r - 1 ∧ r - 1 < (ROWS : Int) ∧ 0 ≤ c - 1 ∧ c - 1 < (COLS : Int) := by
      by_contra hn
      rw [(cardAt?_eq_none_iff _ _ _).2 hn] at hc
      exact absurd hc (by simp)
    cases hm : card.is_matched <;> cases hf : card.is_flipped <;> simp [hm, hf] <;> omega

/-- C4: whatever is typed (no number, a row only, or two numbers that are out of bounds,
name a matched card, name a flipped card, or are valid), `get_player_input` returns and
leaves the board, `flipped_cards`, `flipped_count` and `matched_pairs` as they were.  In
`play_game` a step of either input loop therefore leaves the state as it was: the state
changes only at the `flip_card` that follows an accepted input. -/
theorem get_player_input_leaves_state (s : State) (row col : Int) (a : Attempt)
    (loc : Locals) (input : List Attempt) :
    (∃ res, get_player_input s row col a = some (res, s)) ∧
    (∃ c' rest, step { pc := .ask_first, st := s, loc := loc } (a :: input) = some (c', rest) ∧
      c'.st = s ∧ rest = input ∧ (c'.pc = .ask_first ∨ c'.pc = .flip_first)) ∧
    (∃ c' rest, step { pc := .ask_second, st := s, loc := loc } (a :: input) = some (c', rest) ∧
      c'.st = s ∧ rest = input ∧ (c'.pc = .ask_second ∨ c'.pc = .flip_second)) := by
  refine ⟨get_player_input_state s row col a, ?_, ?_⟩
  · obtain ⟨res, hres⟩ := get_player_input_state s loc.row1 loc.col1 a
    cases hr : res.ret with
    | false =>
      exact ⟨{ pc := .ask_first, st := s, loc := { loc with row1 := res.row, col1 := res.col } },
        input, by simp [step, hres, hr], rfl, rfl, Or.inl rfl⟩
    | true =>
      exact ⟨{ pc := .flip_first, st := s, loc := { loc with row1 := res.row, col1 := res.col } },
        input, by simp [step, hres, hr], rfl, rfl, Or.inr rfl⟩
  · obtain ⟨res, hres⟩ := get_player_input_state s loc.row2 loc.col2 a
    cases hr : res.ret with
    | false =>
      exact ⟨{ pc := .ask_second, st := s, loc := { loc with row2 := res.row, col2 := res.col } },
        input, by simp [step, hres, hr], rfl, rfl, Or.inl rfl⟩
    | true =>
      exact ⟨{ pc := .flip_second, st := s, loc := { loc with row2 := res.row, col2 := res.col } },
        input, by simp [step, hres, hr], rfl, rfl, Or.inr rfl⟩

/-- C8: for every state, after `hide_unmatched_cards` every card that is not matched is face
down, every matched card keeps its `is_flipped`, and the `value` and `is_matched` of every
card, `matched_pairs`, `flipped_count` and `flipped_cards` are as before. -/
theorem hide_unmatched_cards_frame (s : State) :
    (∀ i j, ((hide_unmatched_cards s).board i j).is_flipped
      = if (s.board i j).is_matched then (s.board i j).is_flipped else false) ∧
    (∀ i j, ((hide_unmatched_cards s).board i j).value = (s.board i j).value) ∧
    (∀ i j, ((hide_unmatched_cards s).board i j).is_matched = (s.board i j).is_matched) ∧
    (hide_unmatched_cards s).matched_pairs = s.matched_pairs ∧
    (hide_unmatched_cards s).flipped_count = s.flipped_count ∧
    (hide_unmatched_cards s).flipped_cards = s.flipped_cards := by
  refine ⟨fun i j => ?_, fun i j => ?_, fun i j => ?_, rfl, rfl, rfl⟩
  · rw [hide_unmatched_cards_board, hideCard_is_flipped]
    cases (s.board i j).is_matched <;> simp
  · rw [hide_unmatched_cards_board, hideCard_value]
  · rw [hide_unmatched_cards_board, hideCard_is_matched]

/-- C5: in every configuration that a run of `play_game` visits, every matched card is face
up; and a card that is matched there is matched and face up in every configuration visited
later, however many steps of the loop are run and whatever is typed (no step of the loop,
`hide_unmatched_cards` included, clears `is_matched`, or `is_flipped` of a matched card).
Every one of these steps is defined. -/
theorem matched_cards_stay_face_up (c : Config) (h : Reachable c) :
    (∀ r : Cell, (c.st.board.card r).is_matched = true → (c.st.board.card r).is_flipped = true) ∧
    ∀ (n : Nat) (input : List Attempt), (trace n c input).length = n + 1 ∧
      ∀ c' ∈ trace n c input, ∀ r : Cell, (c.st.board.card r).is_matched = true →
        (c'.st.board.card r).is_matched = true ∧ (c'.st.board.card r).is_flipped = true := by
  have hi := reachable_inv h
  refine ⟨fun r => inv_matched_flipped hi r, fun n input => ⟨trace_length n c input hi, ?_⟩⟩
  intro c' hc' r hr
  have hm := (trace_facts n c input hi c' hc').2.1 r hr
  exact ⟨hm, inv_matched_flipped (inv_trace n c input hi c' hc') r hm⟩

/-- Instance of C5: the demo game after the turn that matched the two cards of value 5. -/
theorem matched_cards_stay_face_up_witness :
    Reachable (demo_config 7 [.coords 1 1, .coords 1 2]) ∧
    ((demo_config 7 [.coords 1 1, .coords 1 2]).st.board.card (0, 0)).is_matched = true ∧
    ((∀ r : Cell, ((demo_config 7 [.coords 1 1, .coords 1 2]).st.board.card r).is_matched = true →
      ((demo_config 7 [.coords 1 1, .coords 1 2]).st.board.card r).is_flipped = true) ∧
    ∀ (n : Nat) (input : List Attempt),
      (trace n (demo_config 7 [.coords 1 1, .coords 1 2]) input).length = n + 1 ∧
      ∀ c' ∈ trace n (demo_config 7 [.coords 1 1, .coords 1 2]) input, ∀ r : Cell,
        ((demo_config 7 [.coords 1 1, .coords 1 2]).st.board.card r).is_matched = true →
        (c'.st.board.card r).is_matched = true ∧ (c'.st.board.card r).is_flipped = true) :=
  ⟨demo_reachable 7 _, by decide,
    matched_cards_stay_face_up (demo_config 7 [.coords 1 1, .coords 1 2]) (demo_reachable 7 _)⟩

/-- C6: in every configuration that a run of `play_game` visits, `0 ≤ matched_pairs ≤ PAIRS`;
the next step is defined and adds exactly 1 to `matched_pairs` when it is the `check_match`
of a turn whose two selected cards have equal value, and leaves `matched_pairs` as it is in
every other case (a rejected or accepted input, a flip, a `check_match` on different values,
the hiding, the reset); so `matched_pairs` never decreases along a run. -/
theorem matched_pairs_monotone (c : Config) (h : Reachable c) (input : List Attempt) :
    (0 ≤ c.st.matched_pairs ∧ c.st.matched_pairs ≤ (PAIRS : Int)) ∧
    (∃ c' rest, step c input = some (c', rest) ∧
      c'.st.matched_pairs = c.st.matched_pairs
        + (if c.pc = .check ∧ selected_equal c.st = true then 1 else 0)) ∧
    ∀ n : Nat, ∀ c' ∈ trace n c input, c.st.matched_pairs ≤ c'.st.matched_pairs := by
  have hi := reachable_inv h
  refine ⟨inv_bounds hi, ?_, fun n c' hc' => (trace_facts n c input hi c' hc').2.2⟩
  obtain ⟨c', rest, hs, _⟩ := inv_step c input hi
  obtain ⟨_, _, hmp, hiff⟩ := step_facts c c' input rest hi hs
  refine ⟨c', rest, hs, ?_⟩
  rw [hmp]
  by_cases hb : c'.pc = .branch ∧ c'.loc.is_match = true
  · rw [if_pos hb, if_pos (hiff.1 hb)]
  · rw [if_neg hb, if_neg (fun hc => hb (hiff.2 hc))]

/-- Instance of C6: the demo game at the `check_match` of a turn that selected the two cards
of value 5; the step takes `matched_pairs` from 0 to 1. -/
theorem matched_pairs_monotone_witness :
    Reachable (demo_config 4 [.coords 1 1, .coords 1 2]) ∧
    (demo_config 4 [.coords 1 1, .coords 1 2]).pc = .check ∧
    selected_equal (demo_config 4 [.coords 1 1, .coords 1 2]).st = true ∧
    ((0 ≤ (demo_config 4 [.coords 1 1, .coords 1 2]).st.matched_pairs ∧
      (demo_config 4 [.coords 1 1, .coords 1 2]).st.matched_pairs ≤ (PAIRS : Int)) ∧
    (∃ c' rest, step (demo_config 4 [.coords 1 1, .coords 1 2]) [] = some (c', rest) ∧
      c'.st.matched_pairs = (demo_config 4 [.coords 1 1, .coords 1 2]).st.matched_pairs
        + (if (demo_config 4 [.coords 1 1, .coords 1 2]).pc = .check ∧
            selected_equal (demo_config 4 [.coords 1 1, .coords 1 2]).st = true then 1 else 0)) ∧
    ∀ n : Nat, ∀ c' ∈ trace n (demo_config 4 [.coords 1 1, .coords 1 2]) [],
      (demo_config 4 [.coords 1 1, .coords 1 2]).st.matched_pairs ≤ c'.st.matched_pairs) :=
  ⟨demo_reachable 4 _, by decide, by decide,
    matched_pairs_monotone (demo_config 4 [.coords 1 1, .coords 1 2]) (demo_reachable 4 _) []⟩

/-- C7: `is_game_won` returns true exactly when `matched_pairs = PAIRS` and returns the
state it was given, so a second call returns the same.  In every run of `play_game`,
from any board `initialize_board` produces and whatever is typed, `matched_pairs` in the
last configuration equals the number of turns so far in which `check_match` returned
true; that number is at most `PAIRS`; `is_game_won` is true there exactly when it is
`PAIRS` and false exactly when it is less (so it is false after fewer than 8 matching
turns); and at the loop test the next step leaves the loop exactly in the first case. -/
theorem is_game_won_iff_all_matched (s : State) (rand : Nat → Nat) (uninit : Values)
    (s0 : State) (loc : Locals) (n : Nat) (input more : List Attempt) :
    ((is_game_won s).1 = true ↔ s.matched_pairs = (PAIRS : Int)) ∧
    (is_game_won s).2 = s ∧ is_game_won (is_game_won s).2 = is_game_won s ∧
    ∃ last, (play_game rand uninit s0 loc n input).getLast? = some last ∧
      last.st.matched_pairs = (matching_turns (play_game rand uninit s0 loc n input) : Int) ∧
      matching_turns (play_game rand uninit s0 loc n input) ≤ PAIRS ∧
      ((is_game_won last.st).1 = true
        ↔ matching_turns (play_game rand uninit s0 loc n input) = PAIRS) ∧
      ((is_game_won last.st).1 = false
        ↔ matching_turns (play_game rand uninit s0 loc n input) < PAIRS) ∧
      (last.pc = .loop_test → ∃ c', step last more = some (c', more) ∧
        (c'.pc = .finished ↔ matching_turns (play_game rand uninit s0 loc n input) = PAIRS) ∧
        (c'.pc = .ask_first ↔ matching_turns (play_game rand uninit s0 loc n input) < PAIRS))
    := by
  refine ⟨by simp [is_game_won], rfl, rfl, ?_⟩
  obtain ⟨s', hs', hmp0, _⟩ := initialize_board_defined rand uninit s0
  have hi := inv_init loc hs'
  obtain ⟨last, hl, hil, hc⟩ := trace_count n _ input hi
  have hpg : play_game rand uninit s0 loc n input
      = trace n { pc := .loop_test, st := s', loc := loc } input := by
    unfold play_game; rw [hs']
  have hmt : matching_turns (trace n { pc := .loop_test, st := s', loc := loc } input)
      = matching_turns (trace n { pc := .loop_test, st := s', loc := loc } input).tail := by
    conv_lhs => rw [trace_eq_cons]
    simp [matching_turns]
  rw [hpg, hmt]
  simp only [hmp0, zero_add] at hc
  have hb := inv_bounds hil
  rw [hc] at hb
  have hP : ((PAIRS : Nat) : Int) = 8 := rfl
  have hP' : PAIRS = 8 := rfl
  refine ⟨last, hl, hc, by omega, ?_, ?_, ?_⟩
  · simp only [is_game_won, decide_eq_true_eq, hc]; omega
  · simp only [is_game_won, decide_eq_false_iff_not, hc]; omega
  · obtain ⟨pc, st, l⟩ := last
    intro hpc
    simp only at hpc hc
    subst hpc
    by_cases hw : st.matched_pairs = (PAIRS : Int)
    · refine ⟨{ pc := .finished, st := st, loc := l }, by simp [step, is_game_won, hw], ?_⟩
      simp only [true_iff, reduceCtorEq, false_iff]
      omega
    · have hw' : ¬ st.matched_pairs = 8 := by simpa using hw
      refine ⟨{ pc := .ask_first, st := st, loc := l }, by simp [step, is_game_won, hw'], ?_⟩
      simp only [true_iff, reduceCtorEq, false_iff]
      omega

/-- C9: from every state reachable at the start of a turn, with two accepted selections
whose cards have different values: `check_match` returns false and changes nothing; during
the turn exactly the two selected cards were turned face up; after `hide_unmatched_cards`
and the reset of `flipped_count` both selected cards are face down and the board,
`matched_pairs` and `flipped_count` are what they were at the start of the turn.  The run of
`play_game` goes through exactly these states and is back at the loop test after 7 steps. -/
theorem mismatching_turn_restores (s : State) (loc : Locals)
    (h : Reachable { pc := .ask_first, st := s, loc := loc })
    (a1 a2 : Attempt) (input : List Attempt) (res1 res2 : InputResult) (s1 s2 : State)
    (h1 : get_player_input s loc.row1 loc.col1 a1 = some (res1, s)) (hr1 : res1.ret = true)
    (hf1 : flip_card s res1.row res1.col = some (true, s1))
    (h2 : get_player_input s1 loc.row2 loc.col2 a2 = some (res2, s1)) (hr2 : res2.ret = true)
    (hf2 : flip_card s1 res2.row res2.col = some (true, s2))
    (hv : (cardAt? s.board res1.row res1.col).map (fun k => k.value)
      ≠ (cardAt? s.board res2.row res2.col).map (fun k => k.value)) :
    check_match s2 = some (false, s2) ∧
    (∃ p q : Cell, Names res1.row res1.col p ∧ Names res2.row res2.col q ∧ p ≠ q ∧
      ∀ r, s2.board.card r
        = if r = p ∨ r = q then { s.board.card r with is_flipped := true }
          else s.board.card r) ∧
    (cardAt? (hide_unmatched_cards s2).board res1.row res1.col).map (fun k => k.is_flipped)
      = some false ∧
    (cardAt? (hide_unmatched_cards s2).board res2.row res2.col).map (fun k => k.is_flipped)
      = some false ∧
    ({ hide_unmatched_cards s2 with flipped_count := 0 } : State).board = s.board ∧
    ({ hide_unmatched_cards s2 with flipped_count := 0 } : State).matched_pairs
      = s.matched_pairs ∧
    ({ hide_unmatched_cards s2 with flipped_count := 0 } : State).flipped_count
      = s.flipped_count ∧
    trace 7 { pc := .ask_first, st := s, loc := loc } (a1 :: a2 :: input) =
      [{ pc := .ask_first, st := s, loc := loc },
       { pc := .flip_first, st := s, loc := { loc with row1 := res1.row, col1 := res1.col } },
       { pc := .ask_second, st := s1, loc := { loc with row1 := res1.row, col1 := res1.col } },
       { pc := .flip_second, st := s1,
         loc := { loc with row1 := res1.row, col1 := res1.col,
                           row2 := res2.row, col2 := res2.col } },
       { pc := .check, st := s2,
         loc := { loc with row1 := res1.row, col1 := res1.col,
                           row2 := res2.row, col2 := res2.col } },
       { pc := .branch, st := s2,
         loc := { row1 := res1.row, col1 := res1.col,
                  row2 := res2.row, col2 := res2.col, is_match := false } },
       { pc := .reset, st := hide_unmatched_cards s2,
         loc := { row1 := res1.row, col1 := res1.col,
                  row2 := res2.row, col2 := res2.col, is_match := false } },
       { pc := .loop_test, st := { hide_unmatched_cards s2 with flipped_count := 0 },
         loc := { row1 := res1.row, col1 := res1.col,
                  row2 := res2.row, col2 := res2.col, is_match := false } }] := by
  obtain ⟨p, q, hp, hq, hne, hf, hc, hpm, hqm, hb, hsel1, hsel2, hcnt, hmp⟩ :=
    turn_states h h1 hr1 hf1 h2 hr2 hf2
  have hvne : ¬ (s2.board.card p).value = (s2.board.card q).value := by
    rw [cardAt?_names hp, cardAt?_names hq] at hv
    rw [hb, hb]
    simp only [true_or, or_true, if_true]
    intro e
    exact hv (by simp [e])
  have hcm : check_match s2 = some (false, s2) := by
    rw [check_match_names hsel1 hsel2, if_neg hvne]
  have hboard : (hide_unmatched_cards s2).board = s.board := by
    funext i j
    have hr := hb (i, j)
    simp only [Board.card] at hr
    rw [hide_unmatched_cards_board, hr]
    have hfr := hf (i, j)
    simp only [Board.card, List.not_mem_nil, decide_False, Bool.or_false] at hfr
    by_cases hpq : (i, j) = p ∨ (i, j) = q
    · have hm : (s.board i j).is_matched = false := by
        rcases hpq with e | e
        · rw [← e] at hpm; exact hpm
        · rw [← e] at hqm; exact hqm
      rw [if_pos hpq]
      exact hideCard_turned_up _ hm (by rw [hfr, hm])
    · rw [if_neg hpq]
      exact hideCard_same _ hfr
  refine ⟨hcm, ⟨p, q, hp, hq, hne, hb⟩, ?_, ?_, hboard, hmp, hc.symm, ?_⟩
  · rw [hboard, cardAt?_names hp]
    have := hf p
    simp [hpm] at this
    simp [this]
  · rw [hboard, cardAt?_names hq]
    have := hf q
    simp [hqm] at this
    simp [this]
  · simp [trace, step, h1, hr1, hf1, h2, hr2, hf2, hcm]

/-- Instance of C9: on the demo board `(0,0) = 5` and `(1,0) = 3`; the player types `1 1`
and `2 1`, and after the turn the board and both counters are those of the fresh game. -/
theorem mismatching_turn_restores_witness :
    Reachable { pc := .ask_first, st := demo_state, loc := no_locals } ∧
    (cardAt? demo_state.board 0 0).map (fun k => k.value) = some 5 ∧
    (cardAt? demo_state.board 1 0).map (fun k => k.value) = some 3 ∧
    check_match (demo_after 4 [.coords 1 1, .coords 2 1])
      = some (false, demo_after 4 [.coords 1 1, .coords 2 1]) ∧
    ({ hide_unmatched_cards (demo_after 4 [.coords 1 1, .coords 2 1]) with
        flipped_count := 0 } : State).board = demo_state.board ∧
    ({ hide_unmatched_cards (demo_after 4 [.coords 1 1, .coords 2 1]) with
        flipped_count := 0 } : State).matched_pairs = demo_state.matched_pairs ∧
    ({ hide_unmatched_cards (demo_after 4 [.coords 1 1, .coords 2 1]) with
        flipped_count := 0 } : State).flipped_count = demo_state.flipped_count :=
  have h := mismatching_turn_restores demo_state no_locals (demo_reachable 0 [])
    (.coords 1 1) (.coords 2 1) []
    { ret := true, row := 0, col := 0, printed := none }
    { ret := true, row := 1, col := 0, printed := none }
    (demo_after 2 [.coords 1 1]) (demo_after 4 [.coords 1 1, .coords 2 1])
    rfl rfl rfl rfl rfl rfl (by decide)
  ⟨demo_reachable 0 [], by decide, by decide, h.1, h.2.2.2.2.1, h.2.2.2.2.2.1, h.2.2.2.2.2.2.1⟩

/-- C10: from every state reachable at the start of a turn, with two accepted selections
whose cards have equal values: `check_match` returns true; after the turn both selected
cards are face up and matched, every other card is as at the start of the turn,
`matched_pairs` is one more than before, `flipped_count` is 0, and `is_game_won` is false
whenever the new `matched_pairs` is less than `PAIRS`, in which case the loop goes on to the
first input of the next turn.  The run of `play_game` goes through exactly these states and
is back at the loop test after 7 steps. -/
theorem matching_turn_keeps_pair (s : State) (loc : Locals)
    (h : Reachable { pc := .ask_first, st := s, loc := loc })
    (a1 a2 : Attempt) (input : List Attempt) (res1 res2 : InputResult) (s1 s2 : State)
    (h1 : get_player_input s loc.row1 loc.col1 a1 = some (res1, s)) (hr1 : res1.ret = true)
    (hf1 : flip_card s res1.row res1.col = some (true, s1))
    (h2 : get_player_input s1 loc.row2 loc.col2 a2 = some (res2, s1)) (hr2 : res2.ret = true)
    (hf2 : flip_card s1 res2.row res2.col = some (true, s2))
    (hv : (cardAt? s.board res1.row res1.col).map (fun k => k.value)
      = (cardAt? s.board res2.row res2.col).map (fun k => k.value)) :
    ∃ s3, check_match s2 = some (true, s3) ∧
      (∃ p q : Cell, Names res1.row res1.col p ∧ Names res2.row res2.col q ∧ p ≠ q ∧
        ∀ r, s3.board.card r
          = if r = p ∨ r = q then
              { s.board.card r with is_flipped := true, is_matched := true }
            else s.board.card r) ∧
      (cardAt? s3.board res1.row res1.col).map (fun k => (k.is_flipped, k.is_matched))
        = some (true, true) ∧
      (cardAt? s3.board res2.row res2.col).map (fun k => (k.is_flipped, k.is_matched))
        = some (true, true) ∧
      s3.matched_pairs = s.matched_pairs + 1 ∧
      ({ s3 with flipped_count := 0 } : State).flipped_count = 0 ∧
      (s3.matched_pairs < (PAIRS : Int) →
        (is_game_won { s3 with flipped_count := 0 }).1 = false ∧
        step { pc := .loop_test, st := { s3 with flipped_count := 0 },
               loc := { row1 := res1.row, col1 := res1.col,
                        row2 := res2.row, col2 := res2.col, is_match := true } } input
          = some ({ pc := .ask_first, st := { s3 with flipped_count := 0 },
                    loc := { row1 := res1.row, col1 := res1.col,
                             row2 := res2.row, col2 := res2.col, is_match := true } },
                  input)) ∧
      trace 7 { pc := .ask_first, st := s, loc := loc } (a1 :: a2 :: input) =
        [{ pc := .ask_first, st := s, loc := loc },
         { pc := .flip_first, st := s, loc := { loc with row1 := res1.row, col1 := res1.col } },
         { pc := .ask_second, st := s1, loc := { loc with row1 := res1.row, col1 := res1.col } },
         { pc := .flip_second, st := s1,
           loc := { loc with row1 := res1.row, col1 := res1.col,
                             row2 := res2.row, col2 := res2.col } },
         { pc := .check, st := s2,
           loc := { loc with row1 := res1.row, col1 := res1.col,
                             row2 := res2.row, col2 := res2.col } },
         { pc := .branch, st := s3,
           loc := { row1 := res1.row, col1 := res1.col,
                    row2 := res2.row, col2 := res2.col, is_match := true } },
         { pc := .reset, st := s3,
           loc := { row1 := res1.row, col1 := res1.col,
                    row2 := res2.row, col2 := res2.col, is_match := true } },
         { pc := .loop_test, st := { s3 with flipped_count := 0 },
           loc := { row1 := res1.row, col1 := res1.col,
                    row2 := res2.row, col2 := res2.col, is_match := true } }] := by
  obtain ⟨p, q, hp, hq, hne, hf, hc, hpm, hqm, hb, hsel1, hsel2, hcnt, hmp⟩ :=
    turn_states h h1 hr1 hf1 h2 hr2 hf2
  have hveq : (s2.board.card p).value = (s2.board.card q).value := by
    rw [cardAt?_names hp, cardAt?_names hq] at hv
    rw [hb, hb]
    simpa using hv
  obtain ⟨b, s3, hcm, hiff, _, htrue⟩ := check_match_spec hsel1 hsel2
  have hbt : b = true := hiff.2 hveq
  subst hbt
  obtain ⟨hb3, hmp3, _, _⟩ := htrue rfl
  have hcards : ∀ r, s3.board.card r
      = if r = p ∨ r = q then
          { s.board.card r with is_flipped := true, is_matched := true }
        else s.board.card r := by
    intro r
    rw [hb3, hb]
    by_cases hr : r = p ∨ r = q
    · simp only [if_pos hr]
    · simp only [if_neg hr]
  have hn : ((countCards s.board (fun k => k.is_matched) : Nat) : Int)
      = 2 * s.matched_pairs := (reachable_inv h).2.1
  rw [hmp, wrap32_succ_of_count hn] at hmp3
  refine ⟨s3, hcm, ⟨p, q, hp, hq, hne, hcards⟩, ?_, ?_, hmp3, rfl, ?_, ?_⟩
  · rw [cardAt?_names hp, hcards]; simp
  · rw [cardAt?_names hq, hcards]; simp
  · intro hlt
    have hP : ((PAIRS : Nat) : Int) = 8 := rfl
    have hw : ¬ s3.matched_pairs = 8 := by omega
    constructor
    · simp [is_game_won, hw]
    · simp [step, is_game_won, hw]
  · simp [trace, step, h1, hr1, hf1, h2, hr2, hf2, hcm]

/-- Instance of C10: on the demo board `(0,0) = 5` and `(0,1) = 5`; the player types `1 1`
and `1 2` on the fresh board, and `matched_pairs` becomes 1. -/
theorem matching_turn_keeps_pair_witness :
    Reachable { pc := .ask_first, st := demo_state, loc := no_locals } ∧
    (cardAt? demo_state.board 0 0).map (fun k => k.value) = some 5 ∧
    (cardAt? demo_state.board 0 1).map (fun k => k.value) = some 5 ∧
    demo_state.matched_pairs = 0 ∧
    ∃ s3, check_match (demo_after 4 [.coords 1 1, .coords 1 2]) = some (true, s3) ∧
      (cardAt? s3.board 0 0).map (fun k => (k.is_flipped, k.is_matched)) = some (true, true) ∧
      (cardAt? s3.board 0 1).map (fun k => (k.is_flipped, k.is_matched)) = some (true, true) ∧
      s3.matched_pairs = 1 ∧ (is_game_won { s3 with flipped_count := 0 }).1 = false :=
  have h := matching_turn_keeps_pair demo_state no_locals (demo_reachable 0 [])
    (.coords 1 1) (.coords 1 2) []
    { ret := true, row := 0, col := 0, printed := none }
    { ret := true, row := 0, col := 1, printed := none }
    (demo_after 2 [.coords 1 1]) (demo_after 4 [.coords 1 1, .coords 1 2])
    rfl rfl rfl rfl rfl rfl (by decide)
  ⟨demo_reachable 0 [], by decide, by decide, by decide,
    h.elim fun s3 hs => ⟨s3, hs.1, hs.2.2.1, hs.2.2.2.1, hs.2.2.2.2.1,
      (hs.2.2.2.2.2.2.1 (by rw [hs.2.2.2.2.1]; decide)).1⟩⟩

/-- C11, as amended: for in-bounds `(row, col)`, naming the cell `p`, and
`0 ≤ flipped_count < 2`, `flip_card` returns true, sets `is_flipped` of the card in `p`,
stores `(row, col)` in `flipped_cards` at the index equal to the old `flipped_count`, and
adds 1 to `flipped_count`; it leaves the `value` and `is_matched` of every card, every
other card as a whole, the other entry of `flipped_cards`, and `matched_pairs` as they
were. -/
theorem flip_card_frame (s : State) (row col : Int) (p : Cell)
    (hp : Names row col p) (h0 : 0 ≤ s.flipped_count) (h2 : s.flipped_count < 2) :
    ∃ s' k, (k.val : Int) = s.flipped_count ∧ flip_card s row col = some (true, s') ∧
      (s'.board.card p).is_flipped = true ∧
      s'.flipped_cards k 0 = row ∧ s'.flipped_cards k 1 = col ∧
      s'.flipped_count = s.flipped_count + 1 ∧
      (∀ r, (s'.board.card r).value = (s.board.card r).value ∧
        (s'.board.card r).is_matched = (s.board.card r).is_matched) ∧
      (∀ r, r ≠ p → s'.board.card r = s.board.card r) ∧
      (∀ k' b, k' ≠ k → s'.flipped_cards k' b = s.flipped_cards k' b) ∧
      s'.matched_pairs = s.matched_pairs := by
  obtain ⟨k, hk, hkv⟩ := index?_isSome (n := 2) h0 (by exact_mod_cast h2)
  obtain ⟨s', hflip, hb, hr, hc, hoth, hcnt, hmp⟩ := flip_card_spec hp hk
  refine ⟨s', k, hkv.symm, hflip, ?_, hr, hc, hcnt, ?_, ?_, hoth, hmp⟩
  · rw [hb, if_pos rfl]
  · intro r; rw [hb]; split <;> exact ⟨rfl, rfl⟩
  · intro r hr'; rw [hb, if_neg hr']

/-- Instance of C11 as amended: the first flip of the demo game. -/
theorem flip_card_frame_witness :
    Names 0 0 ((0, 0) : Cell) ∧ 0 ≤ demo_state.flipped_count ∧ demo_state.flipped_count < 2 ∧
    ∃ s', flip_card demo_state 0 0 = some (true, s') ∧
      (s'.board.card (0, 0)).is_flipped = true ∧ s'.flipped_count = 1 :=
  have h := flip_card_frame demo_state 0 0 (0, 0) ⟨by decide, by decide⟩ (by decide) (by decide)
  ⟨⟨by decide, by decide⟩, by decide, by decide,
    h.elim fun s' hs => hs.elim fun k hk =>
      ⟨s', hk.2.1, hk.2.2.1, by rw [hk.2.2.2.2.2.1]; decide⟩⟩

/-- C11 as stated fails: with `flipped_count = -1`, which is less than 2, and the
in-bounds coordinate `(0, 0)`, the write `flipped_cards[flipped_count]` is outside the
array and `flip_card` has no defined result. -/
theorem flip_card_negative_count :
    Names 0 0 ((0, 0) : Cell) ∧
    ({ zero_state with flipped_count := -1 } : State).flipped_count < 2 ∧
    flip_card { zero_state with flipped_count := -1 } 0 0 = none ∧
    ¬ ∃ s', flip_card { zero_state with flipped_count := -1 } 0 0 = some (true, s') :=
  ⟨⟨by decide, by decide⟩, by decide, rfl, fun h => h.elim fun _ hs => by
    have hn : flip_card { zero_state with flipped_count := -1 } 0 0 = none := rfl
    rw [hn] at hs
    exact absurd hs (by simp)⟩

/-- C12: in every configuration that a run of `play_game` visits, `flipped_count` is 0, 1
or 2; it is 0 at the first `flip_card` of a turn and 1 at the second, so both writes
`flipped_cards[flipped_count]` fall on an entry of the 2-entry array; and it is 0 at the
loop test, that is at the end of every turn: the step at line 243 sets it to 0 and goes to
the loop test, whether the turn matched or not. -/
theorem flipped_count_in_range (c : Config) (h : Reachable c) (input : List Attempt) :
    (c.st.flipped_count = 0 ∨ c.st.flipped_count = 1 ∨ c.st.flipped_count = 2) ∧
    (c.pc = .flip_first → c.st.flipped_count = 0 ∧ index? 2 c.st.flipped_count = some 0) ∧
    (c.pc = .flip_second → c.st.flipped_count = 1 ∧ index? 2 c.st.flipped_count = some 1) ∧
    (c.pc = .loop_test → c.st.flipped_count = 0) ∧
    (c.pc = .reset → ∃ c', step c input = some (c', input) ∧ c'.pc = .loop_test ∧
      c'.st.flipped_count = 0) := by
  have hi := reachable_inv h
  have hf := inv_flipped_count hi
  refine ⟨?_, ?_, ?_, hf.1, ?_⟩
  · obtain ⟨pc, s, loc⟩ := c
    cases pc <;> simp only [reduceCtorEq, false_implies, true_implies, true_and, and_true] at hf
      <;> simp [hf]
  · intro hpc
    have := hf.2.2.1 hpc
    exact ⟨this, by rw [this]; rfl⟩
  · intro hpc
    have := hf.2.2.2.2.1 hpc
    exact ⟨this, by rw [this]; rfl⟩
  · intro hpc
    obtain ⟨pc, s, loc⟩ := c
    simp only at hpc
    subst hpc
    exact ⟨_, rfl, rfl, rfl⟩

/-- Instance of C12: the demo game at line 243 of a turn that did not match. -/
theorem flipped_count_in_range_witness :
    Reachable (demo_config 6 [.coords 1 1, .coords 2 1]) ∧
    (demo_config 6 [.coords 1 1, .coords 2 1]).pc = .reset ∧
    (demo_config 6 [.coords 1 1, .coords 2 1]).st.flipped_count = 2 ∧
    ∃ c', step (demo_config 6 [.coords 1 1, .coords 2 1]) [] = some (c', []) ∧
      c'.pc = .loop_test ∧ c'.st.flipped_count = 0 :=
  have h := flipped_count_in_range (demo_config 6 [.coords 1 1, .coords 2 1])
    (demo_reachable 6 _) []
  ⟨demo_reachable 6 _, by decide, by decide, h.2.2.2.2 (by decide)⟩

/-- C13: whatever the globals and the local array held before the call, `initialize_board`
returns; the shuffle leaves an array `values`, the cell in row `i`, column `j` holds
`values[i * COLS + j]`, every card is face down and unmatched, and `matched_pairs` and
`flipped_count` are 0. -/
theorem initialize_board_resets (rand : Nat → Nat) (uninit : Values) (s : State) :
    ∃ values s',
      (fill_pairs uninit).bind (shuffle_loop rand (TOTAL_CARDS - 1) 0) = some values ∧
      initialize_board rand uninit s = some s' ∧
      (∀ i j, s'.board i j
        = { value := values (rowMajor i j), is_flipped := false, is_matched := false }) ∧
      (∀ (i : Fin ROWS) (j : Fin COLS), (rowMajor i j).val = i.val * COLS + j.val) ∧
      s'.matched_pairs = 0 ∧ s'.flipped_count = 0 := by
  obtain ⟨σ, hσ⟩ := shuffle_loop_perm rand (TOTAL_CARDS - 1) 0 paired (by decide)
  refine ⟨paired ∘ σ,
    { board := fun i j => fresh ((paired ∘ σ) (rowMajor i j)),
      flipped_cards := s.flipped_cards, flipped_count := 0, matched_pairs := 0 },
    by rw [fill_pairs_eq]; exact hσ, ?_, fun i j => rfl, fun i j => rfl, rfl, rfl⟩
  simp [initialize_board, fill_pairs_eq, hσ, assign_cards_eq]

/-- C14: at the first input loop of a turn of a run of `play_game`, when the input `(r, c)`
is accepted, `flip_card` on the accepted coordinate returns, and in the state it leaves
`get_player_input` rejects the same input `(r, c)` with the already-flipped diagnostic.
And whenever a run is at `check_match`, the two coordinates in `flipped_cards` name two
different cells. -/
theorem same_card_rejected (c : Config) (h : Reachable c) :
    (c.pc = .ask_first → ∀ (r col : Int) (res : InputResult),
      get_player_input c.st c.loc.row1 c.loc.col1 (.coords r col) = some (res, c.st) →
      res.ret = true →
      ∃ s1, flip_card c.st res.row res.col = some (true, s1) ∧
        ∀ row' col' : Int, get_player_input s1 row' col' (.coords r col)
          = some ({ ret := false, row := r - 1, col := col - 1,
                    printed := some .already_flipped }, s1)) ∧
    (c.pc = .check → ∃ p q : Cell,
      Names (c.st.flipped_cards 0 0) (c.st.flipped_cards 0 1) p ∧
      Names (c.st.flipped_cards 1 0) (c.st.flipped_cards 1 1) q ∧ p ≠ q) := by
  have hi := reachable_inv h
  obtain ⟨pc, s, loc⟩ := c
  constructor
  · intro hpc r col res h1 hr
    simp only at hpc h1
    subst hpc
    obtain ⟨_, _, hc, hf⟩ := hi
    simp only at hc hf
    obtain ⟨_, p, hp, hpm, _⟩ := get_player_input_accepted h1 hr
    have hrow : res.row = r - 1 ∧ res.col = col - 1 := by
      rw [get_player_input_coords] at h1
      simp only [Option.some.injEq, Prod.mk.injEq, and_true] at h1
      rw [← h1]
      cases cardAt? s.board (r - 1) (col - 1) with
      | none => exact ⟨rfl, rfl⟩
      | some card => simp only; split <;> [exact ⟨rfl, rfl⟩; (split <;> exact ⟨rfl, rfl⟩)]
    have hk : index? 2 s.flipped_count = some 0 := by rw [hc]; rfl
    obtain ⟨s1, hflip, hb, _, _, _, _, _⟩ := flip_card_spec hp hk
    refine ⟨s1, hflip, fun row' col' => ?_⟩
    rw [get_player_input_coords]
    rw [hrow.1, hrow.2] at hp
    rw [cardAt?_names hp, hb, if_pos rfl]
    simp [hpm]
  · intro hpc
    simp only at hpc
    subst hpc
    obtain ⟨_, _, _, p, q, hsel1, hsel2, hne, _⟩ := hi
    exact ⟨p, q, hsel1, hsel2, hne⟩

/-- Instance of C14: in the demo game `1 1` is accepted first; typed again after the flip
it is rejected as already flipped. -/
theorem same_card_rejected_witness :
    Reachable (demo_config 0 []) ∧ (demo_config 0 []).pc = .ask_first ∧
    ∃ s1, flip_card demo_state 0 0 = some (true, s1) ∧
      ∀ row' col' : Int, get_player_input s1 row' col' (.coords 1 1)
        = some ({ ret := false, row := 0, col := 0, printed := some .already_flipped }, s1) :=
  ⟨demo_reachable 0 [], rfl,
    (same_card_rejected (demo_config 0 []) (demo_reachable 0 [])).1 rfl 1 1
      { ret := true, row := 0, col := 0, printed := none } rfl rfl⟩

/-- C17: at the start of every turn of a run of `play_game` (the loop test and the first
input loop) `flipped_count` is 0 and every card is face up exactly when it is matched; so
the first selection `(r, c)` is accepted exactly when it names a cell of the board whose
card is not matched. -/
theorem face_up_iff_matched_at_turn_start (c : Config) (h : Reachable c)
    (hpc : c.pc = .loop_test ∨ c.pc = .ask_first) :
    c.st.flipped_count = 0 ∧
    (∀ r : Cell, (c.st.board.card r).is_flipped = (c.st.board.card r).is_matched) ∧
    ∀ r col row0 col0 : Int, ∃ res,
      get_player_input c.st row0 col0 (.coords r col) = some (res, c.st) ∧
      (res.ret = true ↔
        ∃ p : Cell, Names (r - 1) (col - 1) p ∧ (c.st.board.card p).is_matched = false) := by
  have hi := reachable_inv h
  have hcf : c.st.flipped_count = 0 ∧ FaceUp c.st.board [] := by
    obtain ⟨pc, s, loc⟩ := c
    simp only at hpc
    rcases hpc with e | e <;> subst e <;> exact hi.2.2
  have hfm : ∀ r : Cell, (c.st.board.card r).is_flipped = (c.st.board.card r).is_matched := by
    intro r
    have := hcf.2 r
    simpa using this
  refine ⟨hcf.1, hfm, fun r col row0 col0 => ⟨_, get_player_input_coords _ _ _ _ _, ?_⟩⟩
  cases hc : cardAt? c.st.board (r - 1) (col - 1) with
  | none =>
    simp only [Bool.false_eq_true, false_iff, not_exists, not_and]
    intro p hp
    rw [cardAt?_names hp] at hc
    exact absurd hc (by simp)
  | some card =>
    obtain ⟨p, hp, hcard⟩ := cardAt?_eq_some hc
    have hfp := hfm p
    rw [hcard] at hfp
    constructor
    · intro hr
      refine ⟨p, hp, ?_⟩
      rw [hcard]
      cases hm : card.is_matched with
      | false => rfl
      | true => simp [hm] at hr
    · rintro ⟨q, hq, hqm⟩
      have := names_inj hp hq
      subst this
      rw [hcard] at hqm
      simp [hqm, hfp]

/-- Instance of C17: the demo game at the first input loop of its second turn, after the
two cards of value 5 have been matched. -/
theorem face_up_iff_matched_at_turn_start_witness :
    Reachable (demo_config 8 [.coords 1 1, .coords 1 2]) ∧
    ((demo_config 8 [.coords 1 1, .coords 1 2]).pc = .loop_test ∨
      (demo_config 8 [.coords 1 1, .coords 1 2]).pc = .ask_first) ∧
    ((demo_config 8 [.coords 1 1, .coords 1 2]).st.board.card (0, 0)).is_matched = true ∧
    (demo_config 8 [.coords 1 1, .coords 1 2]).st.flipped_count = 0 ∧
    ∀ r : Cell, ((demo_config 8 [.coords 1 1, .coords 1 2]).st.board.card r).is_flipped
      = ((demo_config 8 [.coords 1 1, .coords 1 2]).st.board.card r).is_matched :=
  have h := face_up_iff_matched_at_turn_start (demo_config 8 [.coords 1 1, .coords 1 2])
    (demo_reachable 8 _) (Or.inr (by decide))
  ⟨demo_reachable 8 _, Or.inr (by decide), by decide, h.1, h.2.1⟩

/-- C16: in every configuration that a run of `play_game` visits, the number of matched
cards is `2 * matched_pairs`, and there is a set of `matched_pairs` values among `1..8` such
that the matched cards are exactly the cards carrying one of these values, both copies of
each; so `is_game_won` is true exactly when all 16 cards are matched, and `matched_pairs`
never exceeds `PAIRS`. -/
theorem matched_cards_are_pairs (c : Config) (h : Reachable c) :
    ((countCards c.st.board (fun k => k.is_matched) : Nat) : Int) = 2 * c.st.matched_pairs ∧
    (∃ V : Finset Int, (V.card : Int) = c.st.matched_pairs ∧
      (∀ v ∈ V, 1 ≤ v ∧ v ≤ (PAIRS : Int)) ∧
      (∀ v ∈ V, countCards c.st.board (fun k => k.value == v && k.is_matched) = 2) ∧
      ∀ r : Cell, (c.st.board.card r).is_matched = true ↔ (c.st.board.card r).value ∈ V) ∧
    ((is_game_won c.st).1 = true ↔ ∀ r : Cell, (c.st.board.card r).is_matched = true) ∧
    c.st.matched_pairs ≤ (PAIRS : Int) := by
  have hi := reachable_inv h
  obtain ⟨⟨hp, hm⟩, hn, _⟩ := hi
  obtain ⟨V, hV, hrange, htwo, hiff⟩ := matched_values hp hm
  refine ⟨hn, ⟨V, ?_, hrange, htwo, hiff⟩, ?_, (inv_bounds (reachable_inv h)).2⟩
  · rw [hV] at hn
    push_cast at hn
    omega
  · rw [← all_matched_iff]
    simp only [is_game_won, decide_eq_true_eq]
    have hP : ((PAIRS : Nat) : Int) = 8 := rfl
    have hT : TOTAL_CARDS = 16 := rfl
    omega

/-- Instance of C16: the demo game after its first matching turn. -/
theorem matched_cards_are_pairs_witness :
    Reachable (demo_config 8 [.coords 1 1, .coords 1 2]) ∧
    (demo_config 8 [.coords 1 1, .coords 1 2]).st.matched_pairs = 1 ∧
    ((countCards (demo_config 8 [.coords 1 1, .coords 1 2]).st.board
      (fun k => k.is_matched) : Nat) : Int)
      = 2 * (demo_config 8 [.coords 1 1, .coords 1 2]).st.matched_pairs ∧
    (demo_config 8 [.coords 1 1, .coords 1 2]).st.matched_pairs ≤ (PAIRS : Int) :=
  have h := matched_cards_are_pairs (demo_config 8 [.coords 1 1, .coords 1 2])
    (demo_reachable 8 _)
  ⟨demo_reachable 8 _, by decide, h.1, h.2.2.2⟩

/-- C18: at the start of a turn of a run of `play_game` with `is_game_won` false, some input
is accepted by `get_player_input`; for every accepted first selection `flip_card` returns,
and in the state it leaves there is a cell, other than the selected one, whose card has the
same value, is unmatched and face down, and whose coordinates `get_player_input` accepts.
And from every board that `initialize_board` produces there are 16 inputs with which 8
turns (64 steps of the loop) all match and make `is_game_won` true. -/
theorem never_stuck_and_winnable (c : Config) (h : Reachable c)
    (hpc : c.pc = .loop_test ∨ c.pc = .ask_first) (hw : (is_game_won c.st).1 = false) :
    (∃ p : Cell, ∀ row col : Int,
      get_player_input c.st row col (.coords ((p.1.val : Int) + 1) ((p.2.val : Int) + 1))
        = some ({ ret := true, row := (p.1.val : Int), col := (p.2.val : Int),
                  printed := none }, c.st)) ∧
    (∀ (a1 : Attempt) (row col : Int) (res1 : InputResult),
      get_player_input c.st row col a1 = some (res1, c.st) → res1.ret = true →
      ∃ s1, flip_card c.st res1.row res1.col = some (true, s1) ∧
        ∃ q : Cell, ¬ Names res1.row res1.col q ∧
          (cardAt? s1.board (q.1.val : Int) (q.2.val : Int)).map (fun k => k.value)
            = (cardAt? s1.board res1.row res1.col).map (fun k => k.value) ∧
          (s1.board.card q).is_matched = false ∧ (s1.board.card q).is_flipped = false ∧
          ∀ row' col' : Int,
            get_player_input s1 row' col'
                (.coords ((q.1.val : Int) + 1) ((q.2.val : Int) + 1))
              = some ({ ret := true, row := (q.1.val : Int), col := (q.2.val : Int),
                        printed := none }, s1)) ∧
    (∀ (rand : Nat → Nat) (uninit : Values) (s0 : State) (loc0 : Locals),
      ∃ input : List Attempt, input.length = 16 ∧ ∃ last,
        (play_game rand uninit s0 loc0 64 input).getLast? = some last ∧
        last.pc = .loop_test ∧ (is_game_won last.st).1 = true ∧
        matching_turns (play_game rand uninit s0 loc0 64 input) = 8) := by
  have hi := reachable_inv h
  have hcf : c.st.flipped_count = 0 ∧ FaceUp c.st.board [] := by
    obtain ⟨pc, s, loc⟩ := c
    simp only at hpc
    rcases hpc with e | e <;> subst e <;> exact hi.2.2
  have hne : c.st.matched_pairs ≠ (PAIRS : Int) := by
    simpa [is_game_won] using hw
  refine ⟨?_, ?_, winning_run⟩
  · obtain ⟨p, hpm⟩ := exists_unmatched hi hne
    have hpf : (c.st.board.card p).is_flipped = false := by
      have := hcf.2 p
      simpa [hpm] using this
    exact ⟨p, fun row col => get_player_input_accepts_cell c.st row col p hpm hpf⟩
  · intro a1 row col res1 h1 hr1
    obtain ⟨_, p, hp, hpm, _⟩ := get_player_input_accepted h1 hr1
    obtain ⟨s1, hflip, _, _, hb, _, q, hqp, hqv, hqm, hacc⟩ :=
      partner_accepted hi.1 hcf.1 hcf.2 hpm
    have hqf : (c.st.board.card q).is_flipped = false := by
      have := hcf.2 q
      simpa [hqm] using this
    rw [← hp.1, ← hp.2] at hflip
    refine ⟨s1, hflip, q, fun hq => hqp (names_inj hq hp), ?_, ?_, ?_, hacc⟩
    · rw [cardAt?_names (p := q) ⟨rfl, rfl⟩, cardAt?_names hp, hb, hb, if_neg hqp, if_pos rfl]
      simp only [Option.map_some', hqv]
    · rw [hb, if_neg hqp]; exact hqm
    · rw [hb, if_neg hqp]; exact hqf

/-- Instance of C18: the fresh demo game; the first input `1 1` names a card of value 5,
and after its flip a cell other than `(0,0)` with a card of value 5 is accepted. -/
theorem never_stuck_and_winnable_witness :
    Reachable (demo_config 0 []) ∧
    ((demo_config 0 []).pc = .loop_test ∨ (demo_config 0 []).pc = .ask_first) ∧
    (is_game_won (demo_config 0 []).st).1 = false ∧
    (∃ p : Cell, ∀ row col : Int,
      get_player_input (demo_config 0 []).st row col
          (.coords ((p.1.val : Int) + 1) ((p.2.val : Int) + 1))
        = some ({ ret := true, row := (p.1.val : Int), col := (p.2.val : Int),
                  printed := none }, (demo_config 0 []).st)) ∧
    ∃ s1, flip_card (demo_config 0 []).st 0 0 = some (true, s1) ∧
      ∃ q : Cell, ¬ Names 0 0 q ∧
        (cardAt? s1.board (q.1.val : Int) (q.2.val : Int)).map (fun k => k.value)
          = (cardAt? s1.board 0 0).map (fun k => k.value) :=
  have h := never_stuck_and_winnable (demo_config 0 []) (demo_reachable 0 [])
    (Or.inr rfl) (by decide)
  ⟨demo_reachable 0 [], Or.inr rfl, by decide, h.1,
    (h.2.1 (.coords 1 1) 0 0 { ret := true, row := 0, col := 0, printed := none } rfl rfl).elim
      fun s1 hs => ⟨s1, hs.1, hs.2.elim fun q hq => ⟨q, hq.1, hq.2.1⟩⟩⟩

/-- C15: the shuffle loop of `initialize_board` is the Fisher-Yates shuffle.  With loop
variable `i ≥ 1` it takes `j = rand() % (i + 1)`, which satisfies `0 ≤ j ≤ i < 16`, swaps
positions `i` and `j`, and goes on with `i - 1`; with loop variable 0 it stops.  Run from
`i = 15` it is defined for every stream of `rand()` values and rearranges the array by a
permutation.  On an array of 16 distinguishable values every arrangement is produced by
exactly one choice sequence `(j_15, ..., j_1)` with `0 ≤ j_i ≤ i`: the map from the `16!`
choice sequences to the `16!` permutations is a bijection. -/
theorem shuffle_is_fisher_yates :
    (∀ (rand : Nat → Nat) (i k : Nat) (values : Values) (h : i + 1 < TOTAL_CARDS),
      rand k % (i + 1 + 1) ≤ i + 1 ∧
      shuffle_loop rand (i + 1) k values
        = shuffle_loop rand i (k + 1) (values ∘ Equiv.swap ⟨i + 1, h⟩
            ⟨rand k % (i + 1 + 1), lt_of_lt_of_le (Nat.mod_lt _ (Nat.succ_pos _)) h⟩)) ∧
    (∀ (rand : Nat → Nat) (k : Nat) (values : Values),
      shuffle_loop rand 0 k values = some values) ∧
    (∀ (rand : Nat → Nat) (values : Values), ∃ σ : Equiv.Perm (Fin TOTAL_CARDS),
      shuffle_loop rand (TOTAL_CARDS - 1) 0 values = some (values ∘ σ)) ∧
    (∀ (js : Choices) (k : Fin (TOTAL_CARDS - 1)),
      rand_of js k.val % (TOTAL_CARDS - 1 - k.val + 1) = (js k).val) ∧
    (∀ σ : Equiv.Perm (Fin TOTAL_CARDS), ∃! js : Choices,
      shuffle_loop (rand_of js) (TOTAL_CARDS - 1) 0 labels = some (labels ∘ σ)) ∧
    Fintype.card Choices = Nat.factorial 16 ∧
    Fintype.card (Equiv.Perm (Fin TOTAL_CARDS)) = Nat.factorial 16 := by
  refine ⟨fun rand i k values h => ⟨?_, shuffle_loop_succ rand i k values h⟩,
    fun _ _ _ => rfl, fun rand values => ⟨_, shuffle_loop_eq rand _ (by decide) 0 values⟩,
    fun js k => rand_of_mod js k.val k.isLt, ?_, card_choices,
    by rw [Fintype.card_perm]; rfl⟩
  · have hlt : rand k % (i + 1 + 1) < i + 1 + 1 := Nat.mod_lt _ (by omega)
    omega
  · intro σ
    obtain ⟨js, hjs, huniq⟩ := shuffle_perm_choices_bijective.existsUnique σ
    simp only at hjs huniq
    refine ⟨js, ?_, ?_⟩
    · simp only
      rw [shuffle_loop_eq (rand_of js) _ (by decide) 0 labels, hjs]
    · intro js' hjs'
      apply huniq
      rw [shuffle_loop_eq (rand_of js') _ (by decide) 0 labels] at hjs'
      simp only [Option.some.injEq] at hjs'
      apply Equiv.ext
      intro x
      exact labels_injective (congrFun hjs' x)

end MemoryGame
